import Mathlib

/-!
Shallow embedding of src/src/to_chars.cpp, the shortest-roundtrip digit
generation and formatting core of Boost.Charconv.

Buffers are modelled as total functions from byte offsets to byte values
(the cursor becomes an explicit Nat offset, pointer-by-reference mutation
becomes explicit state passing).  Machine integers are modelled as Nat;
every place the source truncates to uint32 is an explicit mod 2 to the 32,
and an unsigned right shift is Nat division by the matching power of two.
The int exponent is modelled as Int.
-/

namespace Charconv

/-- An output buffer: byte offset to byte value. -/
abbrev Buf := Nat → Nat

/-- Store byte v at offset i. -/
def wr (b : Buf) (i v : Nat) : Buf := fun j => if j = i then v else b j

/-- The all-zero buffer, used to instantiate concrete evaluations. -/
def zbuf : Buf := fun _ => 0

/-- Truncation to 32 bits, the uint32 cast of the source. -/
def u32 (n : Nat) : Nat := n % 2 ^ 32

/-- High 32 bits of a 64-bit product, the source expression prod >> 32. -/
def hi32 (n : Nat) : Nat := n / 2 ^ 32

/-- Wrapping 32-bit subtraction a - b for a, b already below 2 to the 32. -/
def sub32 (a b : Nat) : Nat := (a + (2 ^ 32 - b)) % 2 ^ 32

/-- Modelled from the spec: the 200-byte radix-100 table of two-digit ASCII
pairs (spec 4.A, two_digit_table), defined in a Boost.Charconv header that is
not under src/.  Entry i occupies bytes 2i, 2i+1 and is the zero-padded
decimal of i.  Byte j is returned. -/
def radix_table (j : Nat) : Nat :=
  if j % 2 = 0 then 48 + j / 2 / 10 else 48 + j / 2 % 10

/-- Lines 25-46: radix_100_head_table, first digit of i followed by a dot. -/
def radix_100_head_table (j : Nat) : Nat :=
  if j % 2 = 1 then 46
  else if j / 2 < 10 then 48 + j / 2
  else 48 + j / 2 / 10

/-- Lines 48-51: print_1_digit. -/
def print_1_digit (n p : Nat) (b : Buf) : Buf := wr b p (48 + n)

/-- Lines 53-56: print_2_digits, memcpy of two bytes of radix_table. -/
def print_2_digits (n p : Nat) (b : Buf) : Buf :=
  wr (wr b p (radix_table (n * 2))) (p + 1) (radix_table (n * 2 + 1))

/-- The two-byte memcpy from radix_100_head_table used to lay down the head
digit and the speculative decimal point. -/
def copy_head (n p : Nat) (b : Buf) : Buf :=
  wr (wr b p (radix_100_head_table (n * 2))) (p + 1) (radix_100_head_table (n * 2 + 1))

/-- Lines 69-264: print_9_digits.  Emits the shortest representation of s32
(1 to 9 significant digits) at offset pos, trimming trailing zeros, and
returns the updated exponent, cursor and buffer.  Source expressions of the
form base += 1 + cond * 2 are written as an if yielding the same two values. -/
def print_9_digits (s32 : Nat) (exponent : Int) (pos : Nat) (b : Buf) :
    Int × Nat × Buf :=
  if 100000000 ≤ s32 then
    -- 9 digits; 1441151882 = ceil(2^57 / 10^8) + 1
    let prod := s32 * 1441151882 / 2 ^ 25
    let b := copy_head (hi32 prod) pos b
    let prod := u32 prod * 100
    let b := print_2_digits (hi32 prod) (pos + 2) b
    let prod := u32 prod * 100
    let b := print_2_digits (hi32 prod) (pos + 4) b
    let prod := u32 prod * 100
    let b := print_2_digits (hi32 prod) (pos + 6) b
    let prod := u32 prod * 100
    let b := print_2_digits (hi32 prod) (pos + 8) b
    (exponent + 8, pos + 10, b)
  else if 1000000 ≤ s32 then
    -- 7 or 8 digits; 281474978 = ceil(2^48 / 10^6) + 1
    let prod := s32 * 281474978 / 2 ^ 16
    let head_digits := hi32 prod
    let exponent := exponent + 6 + (if 10 ≤ head_digits then 1 else 0)
    let b := copy_head head_digits pos b
    let b := wr b (pos + 2) (radix_table (head_digits * 2 + 1))
    if u32 prod ≤ 2 ^ 32 / 1000000 then
      (exponent, pos + (if 10 ≤ head_digits ∧ 48 < b (pos + 2) then 3 else 1), b)
    else
      let pos := pos + (if 10 ≤ head_digits then 1 else 0)
      let prod := u32 prod * 100
      let b := print_2_digits (hi32 prod) (pos + 2) b
      if u32 prod ≤ 2 ^ 32 / 10000 then
        (exponent, pos + (if 48 < b (pos + 3) then 4 else 3), b)
      else
        let prod := u32 prod * 100
        let b := print_2_digits (hi32 prod) (pos + 4) b
        if u32 prod ≤ 2 ^ 32 / 100 then
          (exponent, pos + (if 48 < b (pos + 5) then 6 else 5), b)
        else
          let prod := u32 prod * 100
          let b := print_2_digits (hi32 prod) (pos + 6) b
          (exponent, pos + (if 48 < b (pos + 7) then 8 else 7), b)
  else if 10000 ≤ s32 then
    -- 5 or 6 digits; 429497 = ceil(2^32 / 10^4)
    let prod := s32 * 429497
    let head_digits := hi32 prod
    let exponent := exponent + 4 + (if 10 ≤ head_digits then 1 else 0)
    let b := copy_head head_digits pos b
    let b := wr b (pos + 2) (radix_table (head_digits * 2 + 1))
    if u32 prod ≤ 2 ^ 32 / 10000 then
      (exponent, pos + (if 10 ≤ head_digits ∧ 48 < b (pos + 2) then 3 else 1), b)
    else
      let pos := pos + (if 10 ≤ head_digits then 1 else 0)
      let prod := u32 prod * 100
      let b := print_2_digits (hi32 prod) (pos + 2) b
      if u32 prod ≤ 2 ^ 32 / 100 then
        (exponent, pos + (if 48 < b (pos + 3) then 4 else 3), b)
      else
        let prod := u32 prod * 100
        let b := print_2_digits (hi32 prod) (pos + 4) b
        (exponent, pos + (if 48 < b (pos + 5) then 6 else 5), b)
  else if 100 ≤ s32 then
    -- 3 or 4 digits; 42949673 = ceil(2^32 / 100)
    let prod := s32 * 42949673
    let head_digits := hi32 prod
    let exponent := exponent + 2 + (if 10 ≤ head_digits then 1 else 0)
    let b := copy_head head_digits pos b
    let b := wr b (pos + 2) (radix_table (head_digits * 2 + 1))
    if u32 prod ≤ 2 ^ 32 / 100 then
      (exponent, pos + (if 10 ≤ head_digits ∧ 48 < b (pos + 2) then 3 else 1), b)
    else
      let pos := pos + (if 10 ≤ head_digits then 1 else 0)
      let prod := u32 prod * 100
      let b := print_2_digits (hi32 prod) (pos + 2) b
      (exponent, pos + (if 48 < b (pos + 3) then 4 else 3), b)
  else
    -- 1 or 2 digits
    let exponent := exponent + (if 10 ≤ s32 then 1 else 0)
    let b := copy_head s32 pos b
    let b := wr b (pos + 2) (radix_table (s32 * 2 + 1))
    (exponent, pos + (if 10 ≤ s32 ∧ 48 < b (pos + 2) then 3 else 1), b)

/-- Line 304-319: the 9-digit / 8-digit block split of the 64-bit path. -/
def first_block_of (significand : Nat) : Nat := u32 (significand / 100000000)

/-- The uint32 computation second_block = uint32(significand) - first_block * 10^8. -/
def second_block_of (significand : Nat) : Nat :=
  sub32 (u32 significand) (u32 (first_block_of significand * 100000000))

/-- Lines 438-481: printing of the trailing 8-digit block with trailing-zero
trimming; 281474978 = ceil(2^48 / 10^6) + 1, and one is added to prod after
the shift. -/
def print_second_block (second_block : Nat) (pos : Nat) (b : Buf) : Nat × Buf :=
  let prod := second_block * 281474978 / 2 ^ 16 + 1
  let b := print_2_digits (hi32 prod) pos b
  if u32 prod ≤ 2 ^ 32 / 1000000 then
    (pos + (if 48 < b (pos + 1) then 2 else 1), b)
  else
    let prod := u32 prod * 100
    let b := print_2_digits (hi32 prod) (pos + 2) b
    if u32 prod ≤ 2 ^ 32 / 10000 then
      (pos + (if 48 < b (pos + 3) then 4 else 3), b)
    else
      let prod := u32 prod * 100
      let b := print_2_digits (hi32 prod) (pos + 4) b
      if u32 prod ≤ 2 ^ 32 / 100 then
        (pos + (if 48 < b (pos + 5) then 6 else 5), b)
      else
        let prod := u32 prod * 100
        let b := print_2_digits (hi32 prod) (pos + 6) b
        (pos + (if 48 < b (pos + 7) then 8 else 7), b)

/-- Lines 302-483: the digit-emission part of the double specialization of
to_chars.  Returns updated exponent, cursor and buffer; the exponent suffix
is appended afterwards by print_expo_double. -/
def to_chars_double_sig (significand : Nat) (exponent : Int) (pos : Nat) (b : Buf) :
    Int × Nat × Buf :=
  if 100000000 ≤ significand then
    let first_block := first_block_of significand
    let second_block := second_block_of significand
    let exponent := exponent + 8
    if second_block = 0 then
      print_9_digits first_block exponent pos b
    else if 100000000 ≤ first_block then
      -- 17 digits: dense 9-digit block then dense 8-digit block
      let prod := first_block * 1441151882 / 2 ^ 25
      let b := copy_head (hi32 prod) pos b
      let prod := u32 prod * 100
      let b := print_2_digits (hi32 prod) (pos + 2) b
      let prod := u32 prod * 100
      let b := print_2_digits (hi32 prod) (pos + 4) b
      let prod := u32 prod * 100
      let b := print_2_digits (hi32 prod) (pos + 6) b
      let prod := u32 prod * 100
      let b := print_2_digits (hi32 prod) (pos + 8) b
      let prod := second_block * 281474978 / 2 ^ 16 + 1
      let b := print_2_digits (hi32 prod) (pos + 10) b
      let prod := u32 prod * 100
      let b := print_2_digits (hi32 prod) (pos + 12) b
      let prod := u32 prod * 100
      let b := print_2_digits (hi32 prod) (pos + 14) b
      let prod := u32 prod * 100
      let b := print_2_digits (hi32 prod) (pos + 16) b
      (exponent + 8, pos + 18, b)
    else
      -- dense first block of 1 to 8 digits, then the trimmed second block
      let t : Int × Nat × Buf :=
        if 1000000 ≤ first_block then
          let prod := first_block * 281474978 / 2 ^ 16
          let head_digits := hi32 prod
          let b := copy_head head_digits pos b
          let b := wr b (pos + 2) (radix_table (head_digits * 2 + 1))
          let exponent := exponent + 6 + (if 10 ≤ head_digits then 1 else 0)
          let pos := pos + (if 10 ≤ head_digits then 1 else 0)
          let prod := u32 prod * 100
          let b := print_2_digits (hi32 prod) (pos + 2) b
          let prod := u32 prod * 100
          let b := print_2_digits (hi32 prod) (pos + 4) b
          let prod := u32 prod * 100
          let b := print_2_digits (hi32 prod) (pos + 6) b
          (exponent, pos + 8, b)
        else if 10000 ≤ first_block then
          let prod := first_block * 429497
          let head_digits := hi32 prod
          let b := copy_head head_digits pos b
          let b := wr b (pos + 2) (radix_table (head_digits * 2 + 1))
          let exponent := exponent + 4 + (if 10 ≤ head_digits then 1 else 0)
          let pos := pos + (if 10 ≤ head_digits then 1 else 0)
          let prod := u32 prod * 100
          let b := print_2_digits (hi32 prod) (pos + 2) b
          let prod := u32 prod * 100
          let b := print_2_digits (hi32 prod) (pos + 4) b
          (exponent, pos + 6, b)
        else if 100 ≤ first_block then
          let prod := first_block * 42949673
          let head_digits := hi32 prod
          let b := copy_head head_digits pos b
          let b := wr b (pos + 2) (radix_table (head_digits * 2 + 1))
          let exponent := exponent + 2 + (if 10 ≤ head_digits then 1 else 0)
          let pos := pos + (if 10 ≤ head_digits then 1 else 0)
          let prod := u32 prod * 100
          let b := print_2_digits (hi32 prod) (pos + 2) b
          (exponent, pos + 4, b)
        else
          let b := copy_head first_block pos b
          let b := wr b (pos + 2) (radix_table (first_block * 2 + 1))
          let exponent := exponent + (if 10 ≤ first_block then 1 else 0)
          (exponent, pos + (if 10 ≤ first_block then 3 else 2), b)
      let r := print_second_block second_block t.2.1 t.2.2
      (t.1, r.1, r.2)
  else
    print_9_digits (u32 significand) exponent pos b

/-- The four output format tags of chars_format. -/
inductive chars_format
  | scientific
  | fixed
  | general
  | hex
deriving DecidableEq

/-- Lines 272-298 after the digit emission: the exponent suffix of the float
specialization, always two exponent digits. -/
def print_expo_float (exponent : Int) (fmt : chars_format) (pos : Nat) (b : Buf) :
    Nat × Buf :=
  if exponent < 0 then
    let b := wr (wr b pos 101) (pos + 1) 45
    let b := print_2_digits (-exponent).toNat (pos + 2) b
    (pos + 4, b)
  else if exponent = 0 then
    if fmt = chars_format.scientific then
      (pos + 4, wr (wr (wr (wr b pos 101) (pos + 1) 43) (pos + 2) 48) (pos + 3) 48)
    else
      (pos, b)
  else
    let b := wr (wr b pos 101) (pos + 1) 43
    let b := print_2_digits exponent.toNat (pos + 2) b
    (pos + 4, b)

/-- Lines 506-522: the two- or three-digit magnitude of the double exponent
suffix; 6554 = ceil(2^16 / 10). -/
def print_expo_digits (e : Nat) (pos : Nat) (b : Buf) : Nat × Buf :=
  if 100 ≤ e then
    let prod := e * 6554
    let d1 := prod / 2 ^ 16
    let prod := prod % 2 ^ 16 * 5
    let d2 := prod / 2 ^ 15
    let b := print_2_digits d1 pos b
    let b := print_1_digit d2 (pos + 2) b
    (pos + 3, b)
  else
    (pos + 2, print_2_digits e pos b)

/-- Lines 484-524: the exponent suffix of the double specialization. -/
def print_expo_double (exponent : Int) (fmt : chars_format) (pos : Nat) (b : Buf) :
    Nat × Buf :=
  if exponent < 0 then
    print_expo_digits (-exponent).toNat (pos + 2) (wr (wr b pos 101) (pos + 1) 45)
  else if exponent = 0 then
    if fmt = chars_format.scientific then
      (pos + 4, wr (wr (wr (wr b pos 101) (pos + 1) 43) (pos + 2) 48) (pos + 3) 48)
    else
      (pos, b)
  else
    print_expo_digits exponent.toNat (pos + 2) (wr (wr b pos 101) (pos + 1) 43)

/-- Lines 266-299: the float specialization of to_chars. -/
def to_chars_float (s32 : Nat) (exponent : Int) (pos : Nat) (b : Buf)
    (fmt : chars_format) : Nat × Buf :=
  let r := print_9_digits s32 exponent pos b
  print_expo_float r.1 fmt r.2.1 r.2.2

/-- Lines 301-525: the double specialization of to_chars. -/
def to_chars_double (significand : Nat) (exponent : Int) (pos : Nat) (b : Buf)
    (fmt : chars_format) : Nat × Buf :=
  let r := to_chars_double_sig significand exponent pos b
  print_expo_double r.1 fmt r.2.1 r.2.2

/-- Lines 619-653: the long double fallback of to_chars restricted to NaN
inputs (the nonfinite writer of the spec).  The input is abstracted to the
sign bit and the signaling bit of the NaN; returns cursor and buffer.
Byte lists spell the source string literals in ASCII. -/
def memcpyList (b : Buf) (p : Nat) : List Nat → Buf
  | [] => b
  | c :: cs => memcpyList (wr b p c) (p + 1) cs

/-- ASCII bytes of the string nan(snan). -/
def nanSnanBytes : List Nat := [110, 97, 110, 40, 115, 110, 97, 110, 41]

/-- ASCII bytes of the string nan(ind). -/
def nanIndBytes : List Nat := [110, 97, 110, 40, 105, 110, 100, 41]

/-- ASCII bytes of the string nan. -/
def nanBytes : List Nat := [110, 97, 110]

/-- Lines 622-649: the NaN branch of the long double fallback.  When the sign
bit is set one minus sign byte (45) is stored and the cursor advances before
the nan string is copied; the returned cursor reproduces the source
expressions first + 9 + (int)is_negative, first + 9, and first + 3. -/
def to_chars_ld_nan (is_negative is_signaling : Bool) (pos : Nat) (b : Buf) :
    Nat × Buf :=
  if is_negative then
    let b := wr b pos 45
    let pos := pos + 1
    if is_signaling then
      (pos + 9 + 1, memcpyList b pos nanSnanBytes)
    else
      (pos + 9, memcpyList b pos nanIndBytes)
  else
    if is_signaling then
      (pos + 9, memcpyList b pos nanSnanBytes)
    else
      (pos + 3, memcpyList b pos nanBytes)

/-! ## Specification-side digit strings -/

/-- The ASCII decimal digits of n, most significant first. -/
def digitChars (n : Nat) : List Nat :=
  if n < 10 then [48 + n] else digitChars (n / 10) ++ [48 + n % 10]
decreasing_by exact Nat.div_lt_self (by omega) (by omega)

/-- The number of decimal digits of n. -/
def digits10 (n : Nat) : Nat :=
  if n < 10 then 1 else digits10 (n / 10) + 1
decreasing_by exact Nat.div_lt_self (by omega) (by omega)

/-- n with its trailing decimal zeros removed. -/
def trimZeros (n : Nat) : Nat :=
  if h : n = 0 then 0
  else if n % 10 = 0 then trimZeros (n / 10) else n
decreasing_by exact Nat.div_lt_self (Nat.pos_of_ne_zero h) (by omega)

/-- Insert the decimal point after the first digit when at least two digits
remain. -/
def withDot : List Nat → List Nat
  | c :: c2 :: rest => c :: 46 :: c2 :: rest
  | l => l

/-- Insert the decimal point after the first digit unconditionally. -/
def dotted : List Nat → List Nat
  | c :: rest => c :: 46 :: rest
  | [] => []

/-- The expected significand text: trimmed digits with a dot after the first
digit if and only if more than one digit remains. -/
def sigBytes (n : Nat) : List Nat := withDot (digitChars (trimZeros n))

/-- The w-digit zero-padded ASCII digits of r. -/
def padChars (r : Nat) : Nat → List Nat
  | 0 => []
  | w + 1 => padChars (r / 10) w ++ [48 + r % 10]

/-- Drop trailing zero characters. -/
def dropZeros (l : List Nat) : List Nat :=
  (l.reverse.dropWhile fun c => c == 48).reverse

/-- The bytes b pos, b (pos+1), ..., b (pos+n-1). -/
def readRange (b : Buf) (pos n : Nat) : List Nat :=
  (List.range n).map fun i => b (pos + i)

/-- Count of ASCII decimal digit characters in a byte list. -/
def countDigitChars (l : List Nat) : Nat :=
  (l.filter fun c => decide (48 ≤ c ∧ c ≤ 57)).length

end Charconv

namespace Charconv

/-! ## Byte-level lemmas -/

theorem wr_at (b : Buf) (i v : Nat) : wr b i v i = v := by simp [wr]

theorem wr_ne (b : Buf) {i j : Nat} (v : Nat) (h : j ≠ i) : wr b i v j = b j := by
  simp [wr, h]

theorem rt_even (n : Nat) : radix_table (n * 2) = 48 + n / 10 := by
  have h : (n * 2) % 2 = 0 := by omega
  have h2 : n * 2 / 2 = n := by omega
  simp [radix_table, h, h2]

theorem rt_odd (n : Nat) : radix_table (n * 2 + 1) = 48 + n % 10 := by
  have h : (n * 2 + 1) % 2 = 1 := by omega
  have h2 : (n * 2 + 1) / 2 = n := by omega
  simp [radix_table, h, h2]

theorem head_even (n : Nat) :
    radix_100_head_table (n * 2) = if n < 10 then 48 + n else 48 + n / 10 := by
  have h : (n * 2) % 2 = 0 := by omega
  have h2 : n * 2 / 2 = n := by omega
  simp [radix_100_head_table, h, h2]

theorem head_odd (n : Nat) : radix_100_head_table (n * 2 + 1) = 46 := by
  have h : (n * 2 + 1) % 2 = 1 := by omega
  simp [radix_100_head_table, h]

theorem p2_ne (n p : Nat) (b : Buf) {j : Nat} (h1 : j ≠ p) (h2 : j ≠ p + 1) :
    print_2_digits n p b j = b j := by
  unfold print_2_digits
  rw [wr_ne _ _ h2, wr_ne _ _ h1]

theorem p2_at0 (n p : Nat) (b : Buf) : print_2_digits n p b p = 48 + n / 10 := by
  unfold print_2_digits
  rw [wr_ne _ _ (by omega), wr_at, rt_even]

theorem p2_at1 (n p : Nat) (b : Buf) : print_2_digits n p b (p + 1) = 48 + n % 10 := by
  unfold print_2_digits
  rw [wr_at, rt_odd]

theorem ch_ne (n p : Nat) (b : Buf) {j : Nat} (h1 : j ≠ p) (h2 : j ≠ p + 1) :
    copy_head n p b j = b j := by
  unfold copy_head
  rw [wr_ne _ _ h2, wr_ne _ _ h1]

theorem ch_at0 (n p : Nat) (b : Buf) :
    copy_head n p b p = if n < 10 then 48 + n else 48 + n / 10 := by
  unfold copy_head
  rw [wr_ne _ _ (by omega), wr_at, head_even]

theorem ch_at1 (n p : Nat) (b : Buf) : copy_head n p b (p + 1) = 46 := by
  unfold copy_head
  rw [wr_at, head_odd]

/-! ## readRange lemmas -/

theorem readRange_zero (b : Buf) (p : Nat) : readRange b p 0 = [] := rfl

theorem readRange_succ (b : Buf) (p n : Nat) :
    readRange b p (n + 1) = readRange b p n ++ [b (p + n)] := by
  simp [readRange, List.range_succ]

theorem readRange_congr {b1 b2 : Buf} {p n : Nat}
    (h : ∀ i, i < n → b1 (p + i) = b2 (p + i)) :
    readRange b1 p n = readRange b2 p n := by
  simp only [readRange]
  exact List.map_congr_left (fun i hi => h i (List.mem_range.1 hi))

theorem readRange_append (b : Buf) (p n1 n2 : Nat) :
    readRange b p (n1 + n2) = readRange b p n1 ++ readRange b (p + n1) n2 := by
  induction n2 with
  | zero => simp [readRange_zero]
  | succ k ih =>
      have : n1 + (k + 1) = (n1 + k) + 1 := by omega
      rw [this, readRange_succ, ih, readRange_succ]
      simp [Nat.add_assoc]

/-! ## The Jeaiii pair-extraction invariant -/

/-- The remaining fractional part y encodes exactly the m remaining digits r:
    y / 2^32 lies in the half-open interval from r / 10^m to (r+1) / 10^m. -/
def PairInv (y r m : Nat) : Prop :=
  r < 10 ^ m ∧ r * 2 ^ 32 ≤ 10 ^ m * y ∧ 10 ^ m * y < (r + 1) * 2 ^ 32

theorem seed_split (m A s : Nat)
    (h1 : s * 2 ^ 32 ≤ 10 ^ m * A) (h2 : 10 ^ m * A < (s + 1) * 2 ^ 32) :
    hi32 A = s / 10 ^ m ∧ PairInv (u32 A) (s % 10 ^ m) m := by
  have hm : 0 < 10 ^ m := pow_pos (by norm_num) m
  have hs_eq : 10 ^ m * (s / 10 ^ m) + s % 10 ^ m = s := Nat.div_add_mod s (10 ^ m)
  have hq_lt : s % 10 ^ m < 10 ^ m := Nat.mod_lt _ hm
  have hlow : (s / 10 ^ m) * 2 ^ 32 ≤ A := by
    have hps : 10 ^ m * ((s / 10 ^ m) * 2 ^ 32) ≤ 10 ^ m * A :=
      calc 10 ^ m * ((s / 10 ^ m) * 2 ^ 32) = (10 ^ m * (s / 10 ^ m)) * 2 ^ 32 := by ring
        _ ≤ s * 2 ^ 32 := Nat.mul_le_mul_right _ (by omega)
        _ ≤ 10 ^ m * A := h1
    exact Nat.le_of_mul_le_mul_left hps hm
  have hhigh : A < (s / 10 ^ m + 1) * 2 ^ 32 := by
    have h3 : 10 ^ m * A < 10 ^ m * ((s / 10 ^ m + 1) * 2 ^ 32) :=
      calc 10 ^ m * A < (s + 1) * 2 ^ 32 := h2
        _ ≤ (10 ^ m * (s / 10 ^ m) + 10 ^ m) * 2 ^ 32 := Nat.mul_le_mul_right _ (by omega)
        _ = 10 ^ m * ((s / 10 ^ m + 1) * 2 ^ 32) := by ring
    exact Nat.lt_of_mul_lt_mul_left h3
  have hdiv : A / 2 ^ 32 = s / 10 ^ m := by
    have a1 : s / 10 ^ m ≤ A / 2 ^ 32 := (Nat.le_div_iff_mul_le (by norm_num)).2 hlow
    have a2 : A / 2 ^ 32 < s / 10 ^ m + 1 := (Nat.div_lt_iff_lt_mul (by norm_num)).2 hhigh
    omega
  have hA_eq : 2 ^ 32 * (s / 10 ^ m) + A % 2 ^ 32 = A := by
    have h4 := Nat.div_add_mod A (2 ^ 32)
    rw [hdiv] at h4
    exact h4
  have e1 : 10 ^ m * A
      = 10 ^ m * (s / 10 ^ m) * 2 ^ 32 + 10 ^ m * (A % 2 ^ 32) := by
    conv_lhs => rw [← hA_eq]
    ring
  refine ⟨hdiv, hq_lt, ?_, ?_⟩
  · have e2 : s * 2 ^ 32
        = 10 ^ m * (s / 10 ^ m) * 2 ^ 32 + (s % 10 ^ m) * 2 ^ 32 := by
      conv_lhs => rw [← hs_eq]
      ring
    rw [e2, e1] at h1
    exact Nat.le_of_add_le_add_left h1
  · have e2 : (s + 1) * 2 ^ 32
        = 10 ^ m * (s / 10 ^ m) * 2 ^ 32 + (s % 10 ^ m + 1) * 2 ^ 32 := by
      conv_lhs => rw [← hs_eq]
      ring
    rw [e2, e1] at h2
    exact Nat.lt_of_add_lt_add_left h2

theorem pair_step {y r m : Nat} (h : PairInv y r (m + 2)) :
    hi32 (y * 100) = r / 10 ^ m ∧ PairInv (u32 (y * 100)) (r % 10 ^ m) m := by
  obtain ⟨hr, h1, h2⟩ := h
  refine seed_split m (y * 100) r ?_ ?_
  · calc r * 2 ^ 32 ≤ 10 ^ (m + 2) * y := h1
      _ = 10 ^ m * (y * 100) := by ring
  · calc 10 ^ m * (y * 100) = 10 ^ (m + 2) * y := by ring
      _ < (r + 1) * 2 ^ 32 := h2

theorem zero_iff {y r m : Nat} (h : PairInv y r m) (hm : 1 ≤ m) :
    (y ≤ 2 ^ 32 / 10 ^ m ↔ r = 0) := by
  obtain ⟨hr, h1, h2⟩ := h
  have hmp : 0 < 10 ^ m := pow_pos (by norm_num) m
  constructor
  · intro hy
    by_contra hne
    have hr1 : 1 ≤ r := Nat.pos_of_ne_zero hne
    have hle : 10 ^ m * y ≤ 2 ^ 32 := by
      have h3 : y * 10 ^ m ≤ 2 ^ 32 := (Nat.le_div_iff_mul_le hmp).1 hy
      calc 10 ^ m * y = y * 10 ^ m := Nat.mul_comm _ _
        _ ≤ 2 ^ 32 := h3
    have heq : 10 ^ m * y = 2 ^ 32 := by
      have h4 : 2 ^ 32 ≤ 10 ^ m * y :=
        le_trans (by calc (2:ℕ) ^ 32 = 1 * 2 ^ 32 := by ring
          _ ≤ r * 2 ^ 32 := Nat.mul_le_mul_right _ hr1) h1
      omega
    obtain ⟨k, hk⟩ := dvd_pow_self 10 (show m ≠ 0 by omega)
    have hdvd : (5 : ℕ) ∣ 2 ^ 32 := by
      refine ⟨2 * (k * y), ?_⟩
      rw [← heq, hk]
      ring
    norm_num at hdvd
  · intro hr0
    subst hr0
    have h2' : 10 ^ m * y < 2 ^ 32 := by omega
    refine (Nat.le_div_iff_mul_le hmp).2 ?_
    calc y * 10 ^ m = 10 ^ m * y := Nat.mul_comm _ _
      _ ≤ 2 ^ 32 := le_of_lt h2'

/-! ## Per-band seeding facts, proved by linear arithmetic over the
concrete multipliers -/

theorem seed9 {s : Nat} (h1 : 100000000 ≤ s) (h2 : s ≤ 999999999) :
    s * 2 ^ 32 ≤ 10 ^ 8 * (s * 1441151882 / 2 ^ 25) ∧
    10 ^ 8 * (s * 1441151882 / 2 ^ 25) < (s + 1) * 2 ^ 32 := by
  omega

theorem seed78 {s : Nat} (h1 : 1000000 ≤ s) (h2 : s < 100000000) :
    s * 2 ^ 32 ≤ 10 ^ 6 * (s * 281474978 / 2 ^ 16) ∧
    10 ^ 6 * (s * 281474978 / 2 ^ 16) < (s + 1) * 2 ^ 32 := by
  omega

theorem seed56 {s : Nat} (h1 : 10000 ≤ s) (h2 : s < 1000000) :
    s * 2 ^ 32 ≤ 10 ^ 4 * (s * 429497) ∧
    10 ^ 4 * (s * 429497) < (s + 1) * 2 ^ 32 := by
  omega

theorem seed34 {s : Nat} (h1 : 100 ≤ s) (h2 : s < 10000) :
    s * 2 ^ 32 ≤ 10 ^ 2 * (s * 42949673) ∧
    10 ^ 2 * (s * 42949673) < (s + 1) * 2 ^ 32 := by
  omega

theorem seedSB {s : Nat} (h2 : s < 100000000) :
    s * 2 ^ 32 ≤ 10 ^ 6 * (s * 281474978 / 2 ^ 16 + 1) ∧
    10 ^ 6 * (s * 281474978 / 2 ^ 16 + 1) < (s + 1) * 2 ^ 32 := by
  omega

end Charconv

namespace Charconv

/-! ## Digit-string lemmas -/

theorem digitChars_lt {n : Nat} (h : n < 10) : digitChars n = [48 + n] := by
  unfold digitChars
  simp [h]

theorem digitChars_ge {n : Nat} (h : 10 ≤ n) :
    digitChars n = digitChars (n / 10) ++ [48 + n % 10] := by
  conv_lhs => unfold digitChars
  simp [Nat.not_lt.2 h]

theorem digitChars_two {n : Nat} (h1 : 10 ≤ n) (h2 : n < 100) :
    digitChars n = [48 + n / 10, 48 + n % 10] := by
  rw [digitChars_ge h1, digitChars_lt (by omega)]
  rfl

theorem digitChars_ne_nil (n : Nat) : digitChars n ≠ [] := by
  by_cases h : n < 10
  · rw [digitChars_lt h]; simp
  · rw [digitChars_ge (by omega)]; simp

theorem digits10_lt {n : Nat} (h : n < 10) : digits10 n = 1 := by
  unfold digits10
  simp [h]

theorem digits10_ge {n : Nat} (h : 10 ≤ n) : digits10 n = digits10 (n / 10) + 1 := by
  conv_lhs => unfold digits10
  simp [Nat.not_lt.2 h]

theorem digits10_two {n : Nat} (h1 : 10 ≤ n) (h2 : n < 100) : digits10 n = 2 := by
  rw [digits10_ge h1, digits10_lt (by omega)]

theorem padChars_zero_w (r : Nat) : padChars r 0 = [] := rfl

theorem padChars_succ (r w : Nat) :
    padChars r (w + 1) = padChars (r / 10) w ++ [48 + r % 10] := rfl

theorem digitChars_mul_add (h : Nat) {w r : Nat} (hh : 1 ≤ h) (hr : r < 10 ^ w) :
    digitChars (h * 10 ^ w + r) = digitChars h ++ padChars r w := by
  induction w generalizing r with
  | zero =>
      have : r = 0 := by omega
      subst this
      simp [padChars_zero_w]
  | succ k ih =>
      have h10 : 10 ≤ 10 ^ (k + 1) := by
        calc (10:ℕ) = 10 ^ 1 := (pow_one 10).symm
          _ ≤ 10 ^ (k + 1) := Nat.pow_le_pow_right (by norm_num) (by omega)
      have hbig : 10 ≤ h * 10 ^ (k + 1) + r := by
        have : 10 ^ (k + 1) ≤ h * 10 ^ (k + 1) := Nat.le_mul_of_pos_left _ hh
        omega
      have hsplit : h * 10 ^ (k + 1) + r = 10 * (h * 10 ^ k) + r := by ring
      have hdiv : (h * 10 ^ (k + 1) + r) / 10 = h * 10 ^ k + r / 10 := by
        rw [hsplit, Nat.mul_add_div (by norm_num)]
      have hmod : (h * 10 ^ (k + 1) + r) % 10 = r % 10 := by
        rw [hsplit, Nat.mul_add_mod]
      have hrk : r / 10 < 10 ^ k := by
        have : (10:ℕ) ^ (k + 1) = 10 ^ k * 10 := by ring
        rw [this] at hr
        exact Nat.div_lt_of_lt_mul (by omega)
      rw [digitChars_ge hbig, hdiv, hmod, ih hrk, padChars_succ]
      simp [List.append_assoc]

theorem digits10_mul_add (h : Nat) {w r : Nat} (hh : 1 ≤ h) (hr : r < 10 ^ w) :
    digits10 (h * 10 ^ w + r) = digits10 h + w := by
  induction w generalizing r with
  | zero =>
      have : r = 0 := by omega
      subst this
      simp
  | succ k ih =>
      have h10 : 10 ≤ 10 ^ (k + 1) := by
        calc (10:ℕ) = 10 ^ 1 := (pow_one 10).symm
          _ ≤ 10 ^ (k + 1) := Nat.pow_le_pow_right (by norm_num) (by omega)
      have hbig : 10 ≤ h * 10 ^ (k + 1) + r := by
        have : 10 ^ (k + 1) ≤ h * 10 ^ (k + 1) := Nat.le_mul_of_pos_left _ hh
        omega
      have hsplit : h * 10 ^ (k + 1) + r = 10 * (h * 10 ^ k) + r := by ring
      have hdiv : (h * 10 ^ (k + 1) + r) / 10 = h * 10 ^ k + r / 10 := by
        rw [hsplit, Nat.mul_add_div (by norm_num)]
      have hrk : r / 10 < 10 ^ k := by
        have : (10:ℕ) ^ (k + 1) = 10 ^ k * 10 := by ring
        rw [this] at hr
        exact Nat.div_lt_of_lt_mul (by omega)
      rw [digits10_ge hbig, hdiv, ih hrk]
      omega

theorem trimZeros_eq_self {n : Nat} (h : n % 10 ≠ 0) : trimZeros n = n := by
  unfold trimZeros
  have h0 : n ≠ 0 := by omega
  simp [h0, h]

theorem trimZeros_mul10 {n : Nat} (h : 1 ≤ n) : trimZeros (n * 10) = trimZeros n := by
  conv_lhs => unfold trimZeros
  have h0 : n * 10 ≠ 0 := by omega
  have hm : n * 10 % 10 = 0 := by omega
  have hd : n * 10 / 10 = n := by omega
  simp [h0, hm, hd]

theorem trimZeros_mul_pow {n : Nat} (j : Nat) (h : 1 ≤ n) :
    trimZeros (n * 10 ^ j) = trimZeros n := by
  induction j with
  | zero => simp
  | succ k ih =>
      have e : n * 10 ^ (k + 1) = (n * 10 ^ k) * 10 := by ring
      rw [e, trimZeros_mul10 (Nat.mul_pos h (pow_pos (by norm_num) k)), ih]

theorem withDot_append {l T : List Nat} (hl : l ≠ []) (hT : T ≠ []) :
    withDot (l ++ T) = dotted l ++ T := by
  match l, T with
  | [], _ => contradiction
  | [c], t :: ts => rfl
  | c :: c2 :: r2, t :: ts => rfl

theorem withDot_long {l : List Nat} (h : 2 ≤ l.length) : withDot l = dotted l := by
  match l with
  | c :: c2 :: rest => rfl
  | [] => simp at h
  | [c] => simp at h

theorem dotted_digitChars (h : Nat) :
    dotted (digitChars h) =
      if h < 10 then [48 + h, 46] else dotted (digitChars h) := by
  split
  · next hlt => rw [digitChars_lt hlt]; rfl
  · rfl

theorem dropZeros_append_zero (l : List Nat) : dropZeros (l ++ [48]) = dropZeros l := by
  simp [dropZeros, List.dropWhile]

theorem dropZeros_last_ne (l : List Nat) (c : Nat) (h : ¬ c = 48) :
    dropZeros (l ++ [c]) = l ++ [c] := by
  have hb : (c == 48) = false := by simp [h]
  simp [dropZeros, List.dropWhile, hb]

theorem dropZeros_append_replicate (l : List Nat) (j : Nat) :
    dropZeros (l ++ List.replicate j 48) = dropZeros l := by
  induction j with
  | zero => simp
  | succ k ih =>
      rw [List.replicate_succ']
      rw [← List.append_assoc, dropZeros_append_zero, ih]

theorem padChars_zero_r (w : Nat) : padChars 0 w = List.replicate w 48 := by
  induction w with
  | zero => rfl
  | succ k ih =>
      rw [padChars_succ, ih, List.replicate_succ']

theorem padChars_mul_pow (t : Nat) {j w : Nat} (hj : j ≤ w) :
    padChars (t * 10 ^ j) w = padChars t (w - j) ++ List.replicate j 48 := by
  induction j generalizing w with
  | zero => simp
  | succ k ih =>
      obtain ⟨w1, rfl⟩ : ∃ w1, w = w1 + 1 := ⟨w - 1, by omega⟩
      rw [padChars_succ]
      have hd : t * 10 ^ (k + 1) / 10 = t * 10 ^ k := by
        rw [show t * 10 ^ (k+1) = t * 10 ^ k * 10 by ring]
        omega
      have hm : t * 10 ^ (k + 1) % 10 = 0 := by
        rw [show t * 10 ^ (k+1) = t * 10 ^ k * 10 by ring]
        omega
      rw [hd, hm, ih (by omega), List.replicate_succ']
      have hw : w1 + 1 - (k + 1) = w1 - k := by omega
      rw [hw]
      simp [List.append_assoc]

theorem padChars_last {t : Nat} (w : Nat) (ht : t % 10 ≠ 0) :
    dropZeros (padChars t (w + 1)) = padChars t (w + 1) := by
  rw [padChars_succ]
  exact dropZeros_last_ne _ _ (by omega)

theorem exists_trailing (n : Nat) (h : 1 ≤ n) :
    ∃ t j, n = t * 10 ^ j ∧ t % 10 ≠ 0 ∧ 10 ^ j ≤ n := by
  induction n using Nat.strong_induction_on with
  | _ n ih =>
    by_cases hm : n % 10 = 0
    · have h1 : 1 ≤ n / 10 := by omega
      obtain ⟨t, j, e, ht, hle⟩ := ih (n / 10) (by omega) h1
      refine ⟨t, j + 1, ?_, ht, ?_⟩
      · have : n = n / 10 * 10 := by omega
        rw [this, e]
        ring
      · have : n = n / 10 * 10 := by omega
        rw [this]
        calc 10 ^ (j + 1) = 10 ^ j * 10 := by ring
          _ ≤ n / 10 * 10 := by omega
    · exact ⟨n, 0, by simp, hm, by simpa using h⟩

end Charconv

namespace Charconv

theorem padChars_length (r : Nat) : ∀ w, (padChars r w).length = w := by
  intro w
  induction w generalizing r with
  | zero => rfl
  | succ k ih => rw [padChars_succ]; simp [ih]

theorem padChars_ne_nil {r w : Nat} (h : 1 ≤ w) : padChars r w ≠ [] := by
  intro hc
  have := padChars_length r w
  rw [hc] at this
  simp at this
  omega

theorem mod10_of_split (a t w : Nat) (hw : 1 ≤ w) :
    (a * 10 ^ w + t) % 10 = t % 10 := by
  obtain ⟨w1, rfl⟩ : ∃ w1, w = w1 + 1 := ⟨w - 1, by omega⟩
  rw [show a * 10 ^ (w1 + 1) + t = 10 * (a * 10 ^ w1) + t by ring, Nat.mul_add_mod]

/-- The central splitting fact: for a first part h and a w-digit zero-padded
rest r (nonzero), the trimmed dotted significand text is the dotted digits of
h followed by the digits of r with trailing zeros dropped. -/
theorem sigBytes_split (h : Nat) {w r : Nat} (hh : 1 ≤ h) (hr1 : 1 ≤ r)
    (hr2 : r < 10 ^ w) :
    sigBytes (h * 10 ^ w + r) = dotted (digitChars h) ++ dropZeros (padChars r w) := by
  obtain ⟨t, j, rfl, ht, hle⟩ := exists_trailing r hr1
  have ht1 : 1 ≤ t := by
    rcases Nat.eq_zero_or_pos t with h0 | h1
    · subst h0; simp at hr1
    · exact h1
  have hjw : j < w := by
    by_contra hc
    have : 10 ^ w ≤ 10 ^ j := Nat.pow_le_pow_right (by norm_num) (by omega)
    have : 10 ^ w ≤ t * 10 ^ j := le_trans this (Nat.le_mul_of_pos_left _ ht1)
    omega
  have htw : t < 10 ^ (w - j) := by
    have hsp : (10:ℕ) ^ w = 10 ^ (w - j) * 10 ^ j := by
      rw [← pow_add]
      congr 1
      omega
    rw [hsp] at hr2
    by_contra hc
    have : 10 ^ (w - j) * 10 ^ j ≤ t * 10 ^ j :=
      Nat.mul_le_mul_right _ (by omega)
    omega
  have hcomb : h * 10 ^ w + t * 10 ^ j = (h * 10 ^ (w - j) + t) * 10 ^ j := by
    have hsp : (10:ℕ) ^ w = 10 ^ (w - j) * 10 ^ j := by
      rw [← pow_add]
      congr 1
      omega
    rw [hsp]
    ring
  have hpos : 1 ≤ h * 10 ^ (w - j) + t := by omega
  have hlast : (h * 10 ^ (w - j) + t) % 10 ≠ 0 := by
    rw [mod10_of_split h t (w - j) (by omega)]
    exact ht
  unfold sigBytes
  rw [hcomb, trimZeros_mul_pow j hpos, trimZeros_eq_self hlast]
  rw [digitChars_mul_add h hh htw]
  rw [withDot_append (digitChars_ne_nil h) (padChars_ne_nil (by omega))]
  congr 1
  rw [padChars_mul_pow t (le_of_lt hjw), dropZeros_append_replicate]
  obtain ⟨w1, hw1⟩ : ∃ w1, w - j = w1 + 1 := ⟨w - j - 1, by omega⟩
  rw [hw1, padChars_last w1 ht]

/-- With no trailing zeros at all the significand text is the dotted digits. -/
theorem sigBytes_dense (h : Nat) {w r : Nat} (hh : 1 ≤ h) (hr1 : 1 ≤ r)
    (hr2 : r < 10 ^ w) (hlast : r % 10 ≠ 0) :
    sigBytes (h * 10 ^ w + r) = dotted (digitChars h) ++ padChars r w := by
  rw [sigBytes_split h hh hr1 hr2]
  congr 1
  obtain ⟨w1, rfl⟩ : ∃ w1, w = w1 + 1 := by
    refine ⟨w - 1, ?_⟩
    have : 1 ≤ w := by
      by_contra hc
      have : w = 0 := by omega
      subst this
      simp at hr2
      omega
    omega
  exact padChars_last w1 hlast

theorem readRange_one (b : Buf) (p : Nat) : readRange b p 1 = [b p] := by
  simp [readRange, List.range_succ]

theorem readRange_two (b : Buf) (p : Nat) : readRange b p 2 = [b p, b (p + 1)] := by
  simp [readRange, List.range_succ]

theorem readRange_three (b : Buf) (p : Nat) :
    readRange b p 3 = [b p, b (p + 1), b (p + 2)] := by
  simp [readRange, List.range_succ]

end Charconv

namespace Charconv

theorem trimZeros_step {n : Nat} (h0 : n ≠ 0) (hz : n % 10 = 0) :
    trimZeros n = trimZeros (n / 10) := by
  conv_lhs => unfold trimZeros
  simp [h0, hz]

/-- Reading any byte after print_2_digits. -/
theorem p2_get (n p : Nat) (b : Buf) (j : Nat) :
    print_2_digits n p b j
      = if j = p then 48 + n / 10
        else if j = p + 1 then 48 + n % 10 else b j := by
  unfold print_2_digits wr
  by_cases h1 : j = p + 1
  · subst h1
    rw [if_pos rfl, if_neg (by omega), if_pos rfl, rt_odd]
  · rw [if_neg h1]
    by_cases h0 : j = p
    · subst h0
      rw [if_pos rfl, if_pos rfl, rt_even]
    · rw [if_neg h0, if_neg h0, if_neg h1]

/-- Reading any byte after the head-table memcpy. -/
theorem ch_get (n p : Nat) (b : Buf) (j : Nat) :
    copy_head n p b j
      = if j = p then (if n < 10 then 48 + n else 48 + n / 10)
        else if j = p + 1 then 46 else b j := by
  unfold copy_head wr
  by_cases h1 : j = p + 1
  · subst h1
    rw [if_pos rfl, if_neg (by omega), if_pos rfl, head_odd]
  · rw [if_neg h1]
    by_cases h0 : j = p
    · subst h0
      rw [if_pos rfl, if_pos rfl, head_even]
    · rw [if_neg h0, if_neg h0, if_neg h1]

theorem wr_get (b : Buf) (i v j : Nat) :
    wr b i v j = if j = i then v else b j := rfl

theorem p1_get (n p : Nat) (b : Buf) (j : Nat) :
    print_1_digit n p b j = if j = p then 48 + n else b j := rfl

end Charconv

namespace Charconv

theorem rr1 (b : Buf) (p : Nat) : readRange b p 1 = [b p] := by
  simp [readRange, List.range_succ]

theorem rr2 (b : Buf) (p : Nat) : readRange b p 2 = [b p, b (p + 1)] := by
  simp [readRange, List.range_succ]

theorem rr3 (b : Buf) (p : Nat) : readRange b p 3 = [b p, b (p + 1), b (p + 2)] := by
  simp [readRange, List.range_succ]

theorem rr4 (b : Buf) (p : Nat) : readRange b p 4 = [b p, b (p + 1), b (p + 2), b (p + 3)] := by
  simp [readRange, List.range_succ]

theorem rr5 (b : Buf) (p : Nat) : readRange b p 5 = [b p, b (p + 1), b (p + 2), b (p + 3), b (p + 4)] := by
  simp [readRange, List.range_succ]

theorem rr6 (b : Buf) (p : Nat) : readRange b p 6 = [b p, b (p + 1), b (p + 2), b (p + 3), b (p + 4), b (p + 5)] := by
  simp [readRange, List.range_succ]

theorem rr7 (b : Buf) (p : Nat) : readRange b p 7 = [b p, b (p + 1), b (p + 2), b (p + 3), b (p + 4), b (p + 5), b (p + 6)] := by
  simp [readRange, List.range_succ]

theorem rr8 (b : Buf) (p : Nat) : readRange b p 8 = [b p, b (p + 1), b (p + 2), b (p + 3), b (p + 4), b (p + 5), b (p + 6), b (p + 7)] := by
  simp [readRange, List.range_succ]

theorem rr9 (b : Buf) (p : Nat) : readRange b p 9 = [b p, b (p + 1), b (p + 2), b (p + 3), b (p + 4), b (p + 5), b (p + 6), b (p + 7), b (p + 8)] := by
  simp [readRange, List.range_succ]

theorem rr10 (b : Buf) (p : Nat) : readRange b p 10 = [b p, b (p + 1), b (p + 2), b (p + 3), b (p + 4), b (p + 5), b (p + 6), b (p + 7), b (p + 8), b (p + 9)] := by
  simp [readRange, List.range_succ]

theorem rr11 (b : Buf) (p : Nat) : readRange b p 11 = [b p, b (p + 1), b (p + 2), b (p + 3), b (p + 4), b (p + 5), b (p + 6), b (p + 7), b (p + 8), b (p + 9), b (p + 10)] := by
  simp [readRange, List.range_succ]

theorem rr12 (b : Buf) (p : Nat) : readRange b p 12 = [b p, b (p + 1), b (p + 2), b (p + 3), b (p + 4), b (p + 5), b (p + 6), b (p + 7), b (p + 8), b (p + 9), b (p + 10), b (p + 11)] := by
  simp [readRange, List.range_succ]

theorem rr13 (b : Buf) (p : Nat) : readRange b p 13 = [b p, b (p + 1), b (p + 2), b (p + 3), b (p + 4), b (p + 5), b (p + 6), b (p + 7), b (p + 8), b (p + 9), b (p + 10), b (p + 11), b (p + 12)] := by
  simp [readRange, List.range_succ]

theorem rr14 (b : Buf) (p : Nat) : readRange b p 14 = [b p, b (p + 1), b (p + 2), b (p + 3), b (p + 4), b (p + 5), b (p + 6), b (p + 7), b (p + 8), b (p + 9), b (p + 10), b (p + 11), b (p + 12), b (p + 13)] := by
  simp [readRange, List.range_succ]

theorem rr15 (b : Buf) (p : Nat) : readRange b p 15 = [b p, b (p + 1), b (p + 2), b (p + 3), b (p + 4), b (p + 5), b (p + 6), b (p + 7), b (p + 8), b (p + 9), b (p + 10), b (p + 11), b (p + 12), b (p + 13), b (p + 14)] := by
  simp [readRange, List.range_succ]

theorem rr16 (b : Buf) (p : Nat) : readRange b p 16 = [b p, b (p + 1), b (p + 2), b (p + 3), b (p + 4), b (p + 5), b (p + 6), b (p + 7), b (p + 8), b (p + 9), b (p + 10), b (p + 11), b (p + 12), b (p + 13), b (p + 14), b (p + 15)] := by
  simp [readRange, List.range_succ]

theorem rr17 (b : Buf) (p : Nat) : readRange b p 17 = [b p, b (p + 1), b (p + 2), b (p + 3), b (p + 4), b (p + 5), b (p + 6), b (p + 7), b (p + 8), b (p + 9), b (p + 10), b (p + 11), b (p + 12), b (p + 13), b (p + 14), b (p + 15), b (p + 16)] := by
  simp [readRange, List.range_succ]

theorem rr18 (b : Buf) (p : Nat) : readRange b p 18 = [b p, b (p + 1), b (p + 2), b (p + 3), b (p + 4), b (p + 5), b (p + 6), b (p + 7), b (p + 8), b (p + 9), b (p + 10), b (p + 11), b (p + 12), b (p + 13), b (p + 14), b (p + 15), b (p + 16), b (p + 17)] := by
  simp [readRange, List.range_succ]

end Charconv

namespace Charconv

theorem padChars_1 (x : Nat) : padChars x 1 = [48 + x % 10] := by
  simp only [padChars_succ, padChars_zero_w, Nat.div_div_eq_div_mul, List.nil_append,
    List.append_assoc, List.cons_append, List.singleton_append]

theorem padChars_2 (x : Nat) : padChars x 2 = [48 + x / 10 % 10, 48 + x % 10] := by
  simp only [padChars_succ, padChars_zero_w, Nat.div_div_eq_div_mul, List.nil_append,
    List.append_assoc, List.cons_append, List.singleton_append]

theorem padChars_3 (x : Nat) : padChars x 3 = [48 + x / 100 % 10, 48 + x / 10 % 10, 48 + x % 10] := by
  simp only [padChars_succ, padChars_zero_w, Nat.div_div_eq_div_mul, List.nil_append,
    List.append_assoc, List.cons_append, List.singleton_append]

theorem padChars_4 (x : Nat) : padChars x 4 = [48 + x / 1000 % 10, 48 + x / 100 % 10, 48 + x / 10 % 10, 48 + x % 10] := by
  simp only [padChars_succ, padChars_zero_w, Nat.div_div_eq_div_mul, List.nil_append,
    List.append_assoc, List.cons_append, List.singleton_append]

theorem padChars_5 (x : Nat) : padChars x 5 = [48 + x / 10000 % 10, 48 + x / 1000 % 10, 48 + x / 100 % 10, 48 + x / 10 % 10, 48 + x % 10] := by
  simp only [padChars_succ, padChars_zero_w, Nat.div_div_eq_div_mul, List.nil_append,
    List.append_assoc, List.cons_append, List.singleton_append]

theorem padChars_6 (x : Nat) : padChars x 6 = [48 + x / 100000 % 10, 48 + x / 10000 % 10, 48 + x / 1000 % 10, 48 + x / 100 % 10, 48 + x / 10 % 10, 48 + x % 10] := by
  simp only [padChars_succ, padChars_zero_w, Nat.div_div_eq_div_mul, List.nil_append,
    List.append_assoc, List.cons_append, List.singleton_append]

theorem padChars_7 (x : Nat) : padChars x 7 = [48 + x / 1000000 % 10, 48 + x / 100000 % 10, 48 + x / 10000 % 10, 48 + x / 1000 % 10, 48 + x / 100 % 10, 48 + x / 10 % 10, 48 + x % 10] := by
  simp only [padChars_succ, padChars_zero_w, Nat.div_div_eq_div_mul, List.nil_append,
    List.append_assoc, List.cons_append, List.singleton_append]

theorem padChars_8 (x : Nat) : padChars x 8 = [48 + x / 10000000 % 10, 48 + x / 1000000 % 10, 48 + x / 100000 % 10, 48 + x / 10000 % 10, 48 + x / 1000 % 10, 48 + x / 100 % 10, 48 + x / 10 % 10, 48 + x % 10] := by
  simp only [padChars_succ, padChars_zero_w, Nat.div_div_eq_div_mul, List.nil_append,
    List.append_assoc, List.cons_append, List.singleton_append]

end Charconv

namespace Charconv

/-- Dropping the trailing zeros of a padded digit block with trailing-zero
count j leaves the padded digits of the nonzero core. -/
theorem dropZeros_padChars {t : Nat} (j w : Nat) (ht : t % 10 ≠ 0) (hj : j < w) :
    dropZeros (padChars (t * 10 ^ j) w) = padChars t (w - j) := by
  rw [padChars_mul_pow t (le_of_lt hj), dropZeros_append_replicate]
  obtain ⟨w1, hw1⟩ : ∃ w1, w - j = w1 + 1 := ⟨w - j - 1, by omega⟩
  rw [hw1, padChars_last w1 ht]

end Charconv

namespace Charconv

theorem p9_band12 (s : Nat) (e : Int) (pos : Nat) (b : Buf) (h1 : 1 ≤ s) (h2 : s < 100) :
    (print_9_digits s e pos b).1 = e + (digits10 s : Int) - 1 ∧
    (print_9_digits s e pos b).2.1 = pos + (sigBytes s).length ∧
    readRange (print_9_digits s e pos b).2.2 pos (sigBytes s).length = sigBytes s := by
  have hn9 : ¬ 100000000 ≤ s := by omega
  have hn78 : ¬ 1000000 ≤ s := by omega
  have hn56 : ¬ 10000 ≤ s := by omega
  have hn34 : ¬ 100 ≤ s := by omega
  unfold print_9_digits
  rw [if_neg hn9, if_neg hn78, if_neg hn56, if_neg hn34]
  simp only []
  by_cases hs10 : 10 ≤ s
  · rw [if_pos hs10]
    have hd : digits10 s = 2 := digits10_two hs10 h2
    by_cases hz : s % 10 = 0
    · rw [if_neg (by rw [wr_at, rt_odd]; omega)]
      have hsig : sigBytes s = [48 + s / 10] := by
        unfold sigBytes
        rw [trimZeros_step (by omega) hz, trimZeros_eq_self (by omega),
            digitChars_lt (by omega)]
        rfl
      have hlen : (sigBytes s).length = 1 := by rw [hsig]; rfl
      rw [hlen, hsig, rr1]
      refine ⟨by omega, rfl, ?_⟩
      simp only [wr_get, ch_get, rt_odd, List.cons.injEq, and_true]
      split_ifs <;> omega
    · rw [if_pos ⟨hs10, by rw [wr_at, rt_odd]; omega⟩]
      have hsig : sigBytes s = [48 + s / 10, 46, 48 + s % 10] := by
        unfold sigBytes
        rw [trimZeros_eq_self hz, digitChars_two hs10 h2]
        rfl
      have hlen : (sigBytes s).length = 3 := by rw [hsig]; rfl
      rw [hlen, hsig, rr3]
      refine ⟨by omega, rfl, ?_⟩
      simp only [wr_get, ch_get, rt_odd, List.cons.injEq]
      refine ⟨?_, ?_, ?_, trivial⟩ <;> (split_ifs <;> omega)
  · rw [if_neg hs10, if_neg (fun hc => hs10 hc.1)]
    have hd : digits10 s = 1 := digits10_lt (by omega)
    have hsig : sigBytes s = [48 + s] := by
      unfold sigBytes
      rw [trimZeros_eq_self (by omega), digitChars_lt (by omega)]
      rfl
    have hlen : (sigBytes s).length = 1 := by rw [hsig]; rfl
    rw [hlen, hsig, rr1]
    refine ⟨by omega, rfl, ?_⟩
    simp only [wr_get, ch_get, rt_odd, List.cons.injEq, and_true]
    split_ifs <;> omega

end Charconv
namespace Charconv

/-! ## Linear peeling of buffer writes out of readRange -/

theorem rr_p2_snoc (n p q L m : Nat) (b : Buf) (hp : p = q + m) (hL : L = m + 2) :
    readRange (print_2_digits n p b) q L
      = readRange b q m ++ [48 + n / 10, 48 + n % 10] := by
  subst hp hL
  rw [readRange_append]
  congr 1
  · exact readRange_congr fun i hi => p2_ne _ _ _ (by omega) (by omega)
  · rw [rr2, p2_at0, p2_at1]

theorem rr_p2_snoc1 (n p q L m : Nat) (b : Buf) (hp : p = q + m) (hL : L = m + 1) :
    readRange (print_2_digits n p b) q L = readRange b q m ++ [48 + n / 10] := by
  subst hp hL
  rw [readRange_append]
  congr 1
  · exact readRange_congr fun i hi => p2_ne _ _ _ (by omega) (by omega)
  · rw [rr1, p2_at0]

theorem rr_p2_out (n p q L : Nat) (b : Buf) (h : q + L ≤ p) :
    readRange (print_2_digits n p b) q L = readRange b q L :=
  readRange_congr fun i hi => p2_ne _ _ _ (by omega) (by omega)

theorem rr_wr_snoc (v p q L m : Nat) (b : Buf) (hp : p = q + m) (hL : L = m + 1) :
    readRange (wr b p v) q L = readRange b q m ++ [v] := by
  subst hp hL
  rw [readRange_append]
  congr 1
  · exact readRange_congr fun i hi => wr_ne _ _ (by omega)
  · rw [rr1, wr_at]

theorem rr_wr_out (v p q L : Nat) (b : Buf) (h : q + L ≤ p) :
    readRange (wr b p v) q L = readRange b q L :=
  readRange_congr fun i hi => wr_ne _ _ (by omega)

theorem rr_ch_lt (n q L : Nat) (b : Buf) (hn : n < 10) (hL : L = 2) :
    readRange (copy_head n q b) q L = [48 + n, 46] := by
  subst hL
  rw [rr2, ch_at0, ch_at1, if_pos hn]

theorem rr_ch_ge (n q L : Nat) (b : Buf) (hn : 10 ≤ n) (hL : L = 2) :
    readRange (copy_head n q b) q L = [48 + n / 10, 46] := by
  subst hL
  rw [rr2, ch_at0, ch_at1, if_neg (by omega)]

theorem rr_ch1_lt (n q L : Nat) (b : Buf) (hn : n < 10) (hL : L = 1) :
    readRange (copy_head n q b) q L = [48 + n] := by
  subst hL
  rw [rr1, ch_at0, if_pos hn]

theorem rr_ch1_ge (n q L : Nat) (b : Buf) (hn : 10 ≤ n) (hL : L = 1) :
    readRange (copy_head n q b) q L = [48 + n / 10] := by
  subst hL
  rw [rr1, ch_at0, if_neg (by omega)]

end Charconv


namespace Charconv

set_option maxHeartbeats 1600000 in
theorem p9_band34 (s : Nat) (e : Int) (pos : Nat) (b : Buf)
    (h1 : 100 ≤ s) (h2 : s < 10000) :
    (print_9_digits s e pos b).1 = e + (digits10 s : Int) - 1 ∧
    (print_9_digits s e pos b).2.1 = pos + (sigBytes s).length ∧
    readRange (print_9_digits s e pos b).2.2 pos (sigBytes s).length = sigBytes s := by
  have hn9 : ¬ 100000000 ≤ s := by omega
  have hn78 : ¬ 1000000 ≤ s := by omega
  have hn56 : ¬ 10000 ≤ s := by omega
  unfold print_9_digits
  rw [if_neg hn9, if_neg hn78, if_neg hn56, if_pos h1]
  simp only []
  obtain ⟨c1, c2⟩ := seed34 h1 h2
  obtain ⟨hhead, hinv1⟩ := seed_split 2 _ s c1 c2
  clear c1 c2
  have hhead2 : hi32 (s * 42949673) = s / 100 := by
    rw [hhead]; norm_num
  rw [hhead2]
  clear hhead hhead2
  have hz1 : (u32 (s * 42949673) ≤ 2 ^ 32 / 100) ↔ s % 100 = 0 := by
    have h := zero_iff hinv1 (by norm_num)
    norm_num at h ⊢
    exact h
  have hd : digits10 s = digits10 (s / 100) + 2 := by
    have h5 : s = (s / 100) * 10 ^ 2 + s % 100 := by omega
    conv_lhs => rw [h5]
    rw [digits10_mul_add _ (by omega) (by omega)]
  by_cases hr : s % 100 = 0
  · rw [if_pos (hz1.mpr hr)]
    clear hz1 hinv1
    have hsig0 : sigBytes s = withDot (digitChars (trimZeros (s / 100))) := by
      unfold sigBytes
      rw [show trimZeros s = trimZeros (s / 100) by
        conv_lhs => rw [show s = (s / 100) * 10 ^ 2 by omega]
        exact trimZeros_mul_pow 2 (by omega)]
    by_cases hh10 : 10 ≤ s / 100
    · simp only [if_pos hh10]
      have hdv : digits10 s = 4 := by rw [hd, digits10_two hh10 (by omega)]
      clear hd
      by_cases hu : s / 100 % 10 = 0
      · rw [if_neg (by rw [wr_at, rt_odd]; omega)]
        have hsig : sigBytes s = [48 + s / 100 / 10] := by
          rw [hsig0, trimZeros_step (by omega) hu,
              trimZeros_eq_self (by omega), digitChars_lt (by omega)]
          rfl
        have hlen : (sigBytes s).length = 1 := by rw [hsig]; rfl
        rw [hlen, hsig]
        refine ⟨by omega, rfl, ?_⟩
        rw [rr_wr_out _ _ _ _ _ (by omega), rr_ch1_ge _ _ _ _ hh10 rfl]
      · rw [if_pos ⟨hh10, by rw [wr_at, rt_odd]; omega⟩]
        have hsig : sigBytes s = [48 + s / 100 / 10, 46, 48 + s / 100 % 10] := by
          rw [hsig0, trimZeros_eq_self hu, digitChars_two hh10 (by omega)]
          rfl
        have hlen : (sigBytes s).length = 3 := by rw [hsig]; rfl
        rw [hlen, hsig]
        refine ⟨by omega, rfl, ?_⟩
        rw [rr_wr_snoc _ _ _ _ 2 _ rfl rfl, rr_ch_ge _ _ _ _ hh10 rfl, rt_odd]
        rfl
    · simp only [if_neg hh10]
      have hdv : digits10 s = 3 := by rw [hd, digits10_lt (by omega)]
      have hlt : s / 100 < 10 := by omega
      clear hd
      rw [if_neg (fun hc => hh10 hc.1)]
      have hsig : sigBytes s = [48 + s / 100] := by
        rw [hsig0, trimZeros_eq_self (by omega), digitChars_lt (by omega)]
        rfl
      have hlen : (sigBytes s).length = 1 := by rw [hsig]; rfl
      rw [hlen, hsig]
      refine ⟨by omega, rfl, ?_⟩
      rw [rr_wr_out _ _ _ _ _ (by omega), rr_ch1_lt _ _ _ _ hlt rfl]
  · rw [if_neg (fun hc => hr (hz1.mp hc))]
    obtain ⟨hp1, hinv2⟩ := pair_step (m := 0) hinv1
    have hp1b : hi32 (u32 (s * 42949673) * 100) = s % 100 := by
      rw [hp1]; omega
    rw [hp1b]
    have hsplit : sigBytes s
        = dotted (digitChars (s / 100)) ++ dropZeros (padChars (s % 100) 2) := by
      have h5 : s = (s / 100) * 10 ^ 2 + s % 100 := by omega
      conv_lhs => rw [h5]
      exact sigBytes_split _ (by omega) (by omega) (by omega)
    clear hz1 hinv1 hp1 hp1b
    by_cases hh10 : 10 ≤ s / 100
    · simp only [if_pos hh10]
      have hdv : digits10 s = 4 := by rw [hd, digits10_two hh10 (by omega)]
      clear hd
      have hhd : dotted (digitChars (s / 100))
          = [48 + s / 100 / 10, 46, 48 + s / 100 % 10] := by
        rw [digitChars_two hh10 (by omega)]
        rfl
      by_cases hlast : s % 10 = 0
      ·
        have hdz : dropZeros (padChars (s % 100) 2) = padChars (s % 100 / 10) 1 := by
          conv_lhs => rw [show s % 100 = (s % 100 / 10) * 10 ^ 1 by omega]
          rw [dropZeros_padChars 1 2 (by omega) (by omega)]
        rw [hsplit, hhd, hdz, padChars_1]
        rw [show ([48 + s / 100 / 10, 46, 48 + s / 100 % 10]
              ++ [48 + s % 100 / 10 % 10]).length = 4 from rfl]
        refine ⟨by omega, ?_, ?_⟩
        · rw [show pos + 1 + 3 = pos + 1 + 2 + 1 from rfl, p2_at1,
              if_neg (show ¬ 48 < 48 + (s % 100) % 10 by omega)]
        ·
          rw [rr_p2_snoc1 _ _ _ _ 3 _ rfl rfl,
              rr_wr_snoc _ _ _ _ 2 _ rfl rfl,
              rr_ch_ge _ _ _ _ hh10 rfl,
              rt_odd]
          simp only [List.append_assoc, List.cons_append, List.nil_append,
            List.cons.injEq, and_true, true_and]
          omega
      ·
        have hdz : dropZeros (padChars (s % 100) 2) = padChars (s % 100) 2 := by
          exact padChars_last 1 (by omega)
        rw [hsplit, hhd, hdz, padChars_2]
        rw [show ([48 + s / 100 / 10, 46, 48 + s / 100 % 10]
              ++ [48 + s % 100 / 10 % 10, 48 + s % 100 % 10]).length = 5 from rfl]
        refine ⟨by omega, ?_, ?_⟩
        · rw [show pos + 1 + 3 = pos + 1 + 2 + 1 from rfl, p2_at1,
              if_pos (show 48 < 48 + (s % 100) % 10 by omega)]
        ·
          rw [rr_p2_snoc _ _ _ _ 3 _ rfl rfl,
              rr_wr_snoc _ _ _ _ 2 _ rfl rfl,
              rr_ch_ge _ _ _ _ hh10 rfl,
              rt_odd]
          simp only [List.append_assoc, List.cons_append, List.nil_append,
            List.cons.injEq, and_true, true_and]
          omega
    · simp only [if_neg hh10]
      have hdv : digits10 s = 3 := by rw [hd, digits10_lt (by omega)]
      have hlt : s / 100 < 10 := by omega
      clear hd
      have hhd : dotted (digitChars (s / 100)) = [48 + s / 100, 46] := by
        rw [digitChars_lt (by omega)]
        rfl
      by_cases hlast : s % 10 = 0
      ·
        have hdz : dropZeros (padChars (s % 100) 2) = padChars (s % 100 / 10) 1 := by
          conv_lhs => rw [show s % 100 = (s % 100 / 10) * 10 ^ 1 by omega]
          rw [dropZeros_padChars 1 2 (by omega) (by omega)]
        rw [hsplit, hhd, hdz, padChars_1]
        rw [show ([48 + s / 100, 46]
              ++ [48 + s % 100 / 10 % 10]).length = 3 from rfl]
        refine ⟨by omega, ?_, ?_⟩
        · rw [show pos + 0 + 3 = pos + 0 + 2 + 1 from rfl, p2_at1,
              if_neg (show ¬ 48 < 48 + (s % 100) % 10 by omega)]
        ·
          rw [rr_p2_snoc1 _ _ _ _ 2 _ rfl rfl,
              rr_wr_out _ _ _ _ _ (by omega),
              rr_ch_lt _ _ _ _ hlt rfl]
          simp only [List.append_assoc, List.cons_append, List.nil_append,
            List.cons.injEq, and_true, true_and]
          omega
      ·
        have hdz : dropZeros (padChars (s % 100) 2) = padChars (s % 100) 2 := by
          exact padChars_last 1 (by omega)
        rw [hsplit, hhd, hdz, padChars_2]
        rw [show ([48 + s / 100, 46]
              ++ [48 + s % 100 / 10 % 10, 48 + s % 100 % 10]).length = 4 from rfl]
        refine ⟨by omega, ?_, ?_⟩
        · rw [show pos + 0 + 3 = pos + 0 + 2 + 1 from rfl, p2_at1,
              if_pos (show 48 < 48 + (s % 100) % 10 by omega)]
        ·
          rw [rr_p2_snoc _ _ _ _ 2 _ rfl rfl,
              rr_wr_out _ _ _ _ _ (by omega),
              rr_ch_lt _ _ _ _ hlt rfl]
          simp only [List.append_assoc, List.cons_append, List.nil_append,
            List.cons.injEq, and_true, true_and]
          omega

end Charconv

namespace Charconv

set_option maxHeartbeats 1600000 in
theorem p9_band56 (s : Nat) (e : Int) (pos : Nat) (b : Buf)
    (h1 : 10000 ≤ s) (h2 : s < 1000000) :
    (print_9_digits s e pos b).1 = e + (digits10 s : Int) - 1 ∧
    (print_9_digits s e pos b).2.1 = pos + (sigBytes s).length ∧
    readRange (print_9_digits s e pos b).2.2 pos (sigBytes s).length = sigBytes s := by
  have hn9 : ¬ 100000000 ≤ s := by omega
  have hn78 : ¬ 1000000 ≤ s := by omega
  unfold print_9_digits
  rw [if_neg hn9, if_neg hn78, if_pos h1]
  simp only []
  obtain ⟨c1, c2⟩ := seed56 h1 h2
  obtain ⟨hhead, hinv1⟩ := seed_split 4 _ s c1 c2
  clear c1 c2
  have hhead2 : hi32 (s * 429497) = s / 10000 := by
    rw [hhead]; norm_num
  rw [hhead2]
  clear hhead hhead2
  have hz1 : (u32 (s * 429497) ≤ 2 ^ 32 / 10000) ↔ s % 10000 = 0 := by
    have h := zero_iff hinv1 (by norm_num)
    norm_num at h ⊢
    exact h
  have hd : digits10 s = digits10 (s / 10000) + 4 := by
    have h5 : s = (s / 10000) * 10 ^ 4 + s % 10000 := by omega
    conv_lhs => rw [h5]
    rw [digits10_mul_add _ (by omega) (by omega)]
  by_cases hr : s % 10000 = 0
  · rw [if_pos (hz1.mpr hr)]
    clear hz1 hinv1
    have hsig0 : sigBytes s = withDot (digitChars (trimZeros (s / 10000))) := by
      unfold sigBytes
      rw [show trimZeros s = trimZeros (s / 10000) by
        conv_lhs => rw [show s = (s / 10000) * 10 ^ 4 by omega]
        exact trimZeros_mul_pow 4 (by omega)]
    by_cases hh10 : 10 ≤ s / 10000
    · simp only [if_pos hh10]
      have hdv : digits10 s = 6 := by rw [hd, digits10_two hh10 (by omega)]
      clear hd
      by_cases hu : s / 10000 % 10 = 0
      · rw [if_neg (by rw [wr_at, rt_odd]; omega)]
        have hsig : sigBytes s = [48 + s / 10000 / 10] := by
          rw [hsig0, trimZeros_step (by omega) hu,
              trimZeros_eq_self (by omega), digitChars_lt (by omega)]
          rfl
        have hlen : (sigBytes s).length = 1 := by rw [hsig]; rfl
        rw [hlen, hsig]
        refine ⟨by omega, rfl, ?_⟩
        rw [rr_wr_out _ _ _ _ _ (by omega), rr_ch1_ge _ _ _ _ hh10 rfl]
      · rw [if_pos ⟨hh10, by rw [wr_at, rt_odd]; omega⟩]
        have hsig : sigBytes s = [48 + s / 10000 / 10, 46, 48 + s / 10000 % 10] := by
          rw [hsig0, trimZeros_eq_self hu, digitChars_two hh10 (by omega)]
          rfl
        have hlen : (sigBytes s).length = 3 := by rw [hsig]; rfl
        rw [hlen, hsig]
        refine ⟨by omega, rfl, ?_⟩
        rw [rr_wr_snoc _ _ _ _ 2 _ rfl rfl, rr_ch_ge _ _ _ _ hh10 rfl, rt_odd]
        rfl
    · simp only [if_neg hh10]
      have hdv : digits10 s = 5 := by rw [hd, digits10_lt (by omega)]
      have hlt : s / 10000 < 10 := by omega
      clear hd
      rw [if_neg (fun hc => hh10 hc.1)]
      have hsig : sigBytes s = [48 + s / 10000] := by
        rw [hsig0, trimZeros_eq_self (by omega), digitChars_lt (by omega)]
        rfl
      have hlen : (sigBytes s).length = 1 := by rw [hsig]; rfl
      rw [hlen, hsig]
      refine ⟨by omega, rfl, ?_⟩
      rw [rr_wr_out _ _ _ _ _ (by omega), rr_ch1_lt _ _ _ _ hlt rfl]
  · rw [if_neg (fun hc => hr (hz1.mp hc))]
    obtain ⟨hp1, hinv2⟩ := pair_step (m := 2) hinv1
    have hp1b : hi32 (u32 (s * 429497) * 100) = s % 10000 / 100 := by
      rw [hp1]; omega
    rw [hp1b]
    have hz2 : (u32 (u32 (s * 429497) * 100) ≤ 2 ^ 32 / 100) ↔ s % 100 = 0 := by
      have h := zero_iff hinv2 (by norm_num)
      norm_num at h ⊢
      exact h
    have hsplit : sigBytes s
        = dotted (digitChars (s / 10000)) ++ dropZeros (padChars (s % 10000) 4) := by
      have h5 : s = (s / 10000) * 10 ^ 4 + s % 10000 := by omega
      conv_lhs => rw [h5]
      exact sigBytes_split _ (by omega) (by omega) (by omega)
    clear hz1 hinv1 hp1 hp1b
    by_cases hh10 : 10 ≤ s / 10000
    · simp only [if_pos hh10]
      have hdv : digits10 s = 6 := by rw [hd, digits10_two hh10 (by omega)]
      clear hd
      have hhd : dotted (digitChars (s / 10000))
          = [48 + s / 10000 / 10, 46, 48 + s / 10000 % 10] := by
        rw [digitChars_two hh10 (by omega)]
        rfl
      by_cases hr2 : s % 100 = 0
      · rw [if_pos (hz2.mpr hr2)]
        clear hz2 hinv2
        by_cases hu1 : s % 10000 / 100 % 10 = 0
        ·
          have hdz : dropZeros (padChars (s % 10000) 4) = padChars (s % 10000 / 1000) 1 := by
            conv_lhs => rw [show s % 10000 = (s % 10000 / 1000) * 10 ^ 3 by omega]
            rw [dropZeros_padChars 3 4 (by omega) (by omega)]
          rw [hsplit, hhd, hdz, padChars_1]
          rw [show ([48 + s / 10000 / 10, 46, 48 + s / 10000 % 10]
                ++ [48 + s % 10000 / 1000 % 10]).length = 4 from rfl]
          refine ⟨by omega, ?_, ?_⟩
          · rw [show pos + 1 + 3 = pos + 1 + 2 + 1 from rfl, p2_at1,
                if_neg (show ¬ 48 < 48 + (s % 10000 / 100) % 10 by omega)]
          ·
            rw [rr_p2_snoc1 _ _ _ _ 3 _ rfl rfl,
                rr_wr_snoc _ _ _ _ 2 _ rfl rfl,
                rr_ch_ge _ _ _ _ hh10 rfl,
                rt_odd]
            simp only [List.append_assoc, List.cons_append, List.nil_append,
              List.cons.injEq, and_true, true_and]
            omega
        ·
          have hdz : dropZeros (padChars (s % 10000) 4) = padChars (s % 10000 / 100) 2 := by
            conv_lhs => rw [show s % 10000 = (s % 10000 / 100) * 10 ^ 2 by omega]
            rw [dropZeros_padChars 2 4 (by omega) (by omega)]
          rw [hsplit, hhd, hdz, padChars_2]
          rw [show ([48 + s / 10000 / 10, 46, 48 + s / 10000 % 10]
                ++ [48 + s % 10000 / 100 / 10 % 10, 48 + s % 10000 / 100 % 10]).length = 5 from rfl]
          refine ⟨by omega, ?_, ?_⟩
          · rw [show pos + 1 + 3 = pos + 1 + 2 + 1 from rfl, p2_at1,
                if_pos (show 48 < 48 + (s % 10000 / 100) % 10 by omega)]
          ·
            rw [rr_p2_snoc _ _ _ _ 3 _ rfl rfl,
                rr_wr_snoc _ _ _ _ 2 _ rfl rfl,
                rr_ch_ge _ _ _ _ hh10 rfl,
                rt_odd]
            simp only [List.append_assoc, List.cons_append, List.nil_append,
              List.cons.injEq, and_true, true_and]
            omega
      · rw [if_neg (fun hc => hr2 (hz2.mp hc))]
        obtain ⟨hp2, -⟩ := pair_step (m := 0) hinv2
        have hp2b : hi32 (u32 (u32 (s * 429497) * 100) * 100) = s % 100 := by
          rw [hp2]; omega
        rw [hp2b]
        clear hz2 hinv2 hp2 hp2b
        by_cases hlast : s % 10 = 0
        ·
          have hdz : dropZeros (padChars (s % 10000) 4) = padChars (s % 10000 / 10) 3 := by
            conv_lhs => rw [show s % 10000 = (s % 10000 / 10) * 10 ^ 1 by omega]
            rw [dropZeros_padChars 1 4 (by omega) (by omega)]
          rw [hsplit, hhd, hdz, padChars_3]
          rw [show ([48 + s / 10000 / 10, 46, 48 + s / 10000 % 10]
                ++ [48 + s % 10000 / 10 / 100 % 10, 48 + s % 10000 / 10 / 10 % 10, 48 + s % 10000 / 10 % 10]).length = 6 from rfl]
          refine ⟨by omega, ?_, ?_⟩
          · rw [show pos + 1 + 5 = pos + 1 + 4 + 1 from rfl, p2_at1,
                if_neg (show ¬ 48 < 48 + (s % 100) % 10 by omega)]
          ·
            rw [rr_p2_snoc1 _ _ _ _ 5 _ rfl rfl,
                rr_p2_snoc _ _ _ _ 3 _ rfl rfl,
                rr_wr_snoc _ _ _ _ 2 _ rfl rfl,
                rr_ch_ge _ _ _ _ hh10 rfl,
                rt_odd]
            simp only [List.append_assoc, List.cons_append, List.nil_append,
              List.cons.injEq, and_true, true_and]
            omega
        ·
          have hdz : dropZeros (padChars (s % 10000) 4) = padChars (s % 10000) 4 := by
            exact padChars_last 3 (by omega)
          rw [hsplit, hhd, hdz, padChars_4]
          rw [show ([48 + s / 10000 / 10, 46, 48 + s / 10000 % 10]
                ++ [48 + s % 10000 / 1000 % 10, 48 + s % 10000 / 100 % 10, 48 + s % 10000 / 10 % 10, 48 + s % 10000 % 10]).length = 7 from rfl]
          refine ⟨by omega, ?_, ?_⟩
          · rw [show pos + 1 + 5 = pos + 1 + 4 + 1 from rfl, p2_at1,
                if_pos (show 48 < 48 + (s % 100) % 10 by omega)]
          ·
            rw [rr_p2_snoc _ _ _ _ 5 _ rfl rfl,
                rr_p2_snoc _ _ _ _ 3 _ rfl rfl,
                rr_wr_snoc _ _ _ _ 2 _ rfl rfl,
                rr_ch_ge _ _ _ _ hh10 rfl,
                rt_odd]
            simp only [List.append_assoc, List.cons_append, List.nil_append,
              List.cons.injEq, and_true, true_and]
            omega
    · simp only [if_neg hh10]
      have hdv : digits10 s = 5 := by rw [hd, digits10_lt (by omega)]
      have hlt : s / 10000 < 10 := by omega
      clear hd
      have hhd : dotted (digitChars (s / 10000)) = [48 + s / 10000, 46] := by
        rw [digitChars_lt (by omega)]
        rfl
      by_cases hr2 : s % 100 = 0
      · rw [if_pos (hz2.mpr hr2)]
        clear hz2 hinv2
        by_cases hu1 : s % 10000 / 100 % 10 = 0
        ·
          have hdz : dropZeros (padChars (s % 10000) 4) = padChars (s % 10000 / 1000) 1 := by
            conv_lhs => rw [show s % 10000 = (s % 10000 / 1000) * 10 ^ 3 by omega]
            rw [dropZeros_padChars 3 4 (by omega) (by omega)]
          rw [hsplit, hhd, hdz, padChars_1]
          rw [show ([48 + s / 10000, 46]
                ++ [48 + s % 10000 / 1000 % 10]).length = 3 from rfl]
          refine ⟨by omega, ?_, ?_⟩
          · rw [show pos + 0 + 3 = pos + 0 + 2 + 1 from rfl, p2_at1,
                if_neg (show ¬ 48 < 48 + (s % 10000 / 100) % 10 by omega)]
          ·
            rw [rr_p2_snoc1 _ _ _ _ 2 _ rfl rfl,
                rr_wr_out _ _ _ _ _ (by omega),
                rr_ch_lt _ _ _ _ hlt rfl]
            simp only [List.append_assoc, List.cons_append, List.nil_append,
              List.cons.injEq, and_true, true_and]
            omega
        ·
          have hdz : dropZeros (padChars (s % 10000) 4) = padChars (s % 10000 / 100) 2 := by
            conv_lhs => rw [show s % 10000 = (s % 10000 / 100) * 10 ^ 2 by omega]
            rw [dropZeros_padChars 2 4 (by omega) (by omega)]
          rw [hsplit, hhd, hdz, padChars_2]
          rw [show ([48 + s / 10000, 46]
                ++ [48 + s % 10000 / 100 / 10 % 10, 48 + s % 10000 / 100 % 10]).length = 4 from rfl]
          refine ⟨by omega, ?_, ?_⟩
          · rw [show pos + 0 + 3 = pos + 0 + 2 + 1 from rfl, p2_at1,
                if_pos (show 48 < 48 + (s % 10000 / 100) % 10 by omega)]
          ·
            rw [rr_p2_snoc _ _ _ _ 2 _ rfl rfl,
                rr_wr_out _ _ _ _ _ (by omega),
                rr_ch_lt _ _ _ _ hlt rfl]
            simp only [List.append_assoc, List.cons_append, List.nil_append,
              List.cons.injEq, and_true, true_and]
            omega
      · rw [if_neg (fun hc => hr2 (hz2.mp hc))]
        obtain ⟨hp2, -⟩ := pair_step (m := 0) hinv2
        have hp2b : hi32 (u32 (u32 (s * 429497) * 100) * 100) = s % 100 := by
          rw [hp2]; omega
        rw [hp2b]
        clear hz2 hinv2 hp2 hp2b
        by_cases hlast : s % 10 = 0
        ·
          have hdz : dropZeros (padChars (s % 10000) 4) = padChars (s % 10000 / 10) 3 := by
            conv_lhs => rw [show s % 10000 = (s % 10000 / 10) * 10 ^ 1 by omega]
            rw [dropZeros_padChars 1 4 (by omega) (by omega)]
          rw [hsplit, hhd, hdz, padChars_3]
          rw [show ([48 + s / 10000, 46]
                ++ [48 + s % 10000 / 10 / 100 % 10, 48 + s % 10000 / 10 / 10 % 10, 48 + s % 10000 / 10 % 10]).length = 5 from rfl]
          refine ⟨by omega, ?_, ?_⟩
          · rw [show pos + 0 + 5 = pos + 0 + 4 + 1 from rfl, p2_at1,
                if_neg (show ¬ 48 < 48 + (s % 100) % 10 by omega)]
          ·
            rw [rr_p2_snoc1 _ _ _ _ 4 _ rfl rfl,
                rr_p2_snoc _ _ _ _ 2 _ rfl rfl,
                rr_wr_out _ _ _ _ _ (by omega),
                rr_ch_lt _ _ _ _ hlt rfl]
            simp only [List.append_assoc, List.cons_append, List.nil_append,
              List.cons.injEq, and_true, true_and]
            omega
        ·
          have hdz : dropZeros (padChars (s % 10000) 4) = padChars (s % 10000) 4 := by
            exact padChars_last 3 (by omega)
          rw [hsplit, hhd, hdz, padChars_4]
          rw [show ([48 + s / 10000, 46]
                ++ [48 + s % 10000 / 1000 % 10, 48 + s % 10000 / 100 % 10, 48 + s % 10000 / 10 % 10, 48 + s % 10000 % 10]).length = 6 from rfl]
          refine ⟨by omega, ?_, ?_⟩
          · rw [show pos + 0 + 5 = pos + 0 + 4 + 1 from rfl, p2_at1,
                if_pos (show 48 < 48 + (s % 100) % 10 by omega)]
          ·
            rw [rr_p2_snoc _ _ _ _ 4 _ rfl rfl,
                rr_p2_snoc _ _ _ _ 2 _ rfl rfl,
                rr_wr_out _ _ _ _ _ (by omega),
                rr_ch_lt _ _ _ _ hlt rfl]
            simp only [List.append_assoc, List.cons_append, List.nil_append,
              List.cons.injEq, and_true, true_and]
            omega

end Charconv

namespace Charconv

set_option maxHeartbeats 1600000 in
theorem p9_band78 (s : Nat) (e : Int) (pos : Nat) (b : Buf)
    (h1 : 1000000 ≤ s) (h2 : s < 100000000) :
    (print_9_digits s e pos b).1 = e + (digits10 s : Int) - 1 ∧
    (print_9_digits s e pos b).2.1 = pos + (sigBytes s).length ∧
    readRange (print_9_digits s e pos b).2.2 pos (sigBytes s).length = sigBytes s := by
  have hn9 : ¬ 100000000 ≤ s := by omega
  unfold print_9_digits
  rw [if_neg hn9, if_pos h1]
  simp only []
  obtain ⟨c1, c2⟩ := seed78 h1 h2
  obtain ⟨hhead, hinv1⟩ := seed_split 6 _ s c1 c2
  clear c1 c2
  have hhead2 : hi32 (s * 281474978 / 2 ^ 16) = s / 1000000 := by
    rw [hhead]; norm_num
  rw [hhead2]
  clear hhead hhead2
  have hz1 : (u32 (s * 281474978 / 2 ^ 16) ≤ 2 ^ 32 / 1000000) ↔ s % 1000000 = 0 := by
    have h := zero_iff hinv1 (by norm_num)
    norm_num at h ⊢
    exact h
  have hd : digits10 s = digits10 (s / 1000000) + 6 := by
    have h5 : s = (s / 1000000) * 10 ^ 6 + s % 1000000 := by omega
    conv_lhs => rw [h5]
    rw [digits10_mul_add _ (by omega) (by omega)]
  by_cases hr : s % 1000000 = 0
  · rw [if_pos (hz1.mpr hr)]
    clear hz1 hinv1
    have hsig0 : sigBytes s = withDot (digitChars (trimZeros (s / 1000000))) := by
      unfold sigBytes
      rw [show trimZeros s = trimZeros (s / 1000000) by
        conv_lhs => rw [show s = (s / 1000000) * 10 ^ 6 by omega]
        exact trimZeros_mul_pow 6 (by omega)]
    by_cases hh10 : 10 ≤ s / 1000000
    · simp only [if_pos hh10]
      have hdv : digits10 s = 8 := by rw [hd, digits10_two hh10 (by omega)]
      clear hd
      by_cases hu : s / 1000000 % 10 = 0
      · rw [if_neg (by rw [wr_at, rt_odd]; omega)]
        have hsig : sigBytes s = [48 + s / 1000000 / 10] := by
          rw [hsig0, trimZeros_step (by omega) hu,
              trimZeros_eq_self (by omega), digitChars_lt (by omega)]
          rfl
        have hlen : (sigBytes s).length = 1 := by rw [hsig]; rfl
        rw [hlen, hsig]
        refine ⟨by omega, rfl, ?_⟩
        rw [rr_wr_out _ _ _ _ _ (by omega), rr_ch1_ge _ _ _ _ hh10 rfl]
      · rw [if_pos ⟨hh10, by rw [wr_at, rt_odd]; omega⟩]
        have hsig : sigBytes s = [48 + s / 1000000 / 10, 46, 48 + s / 1000000 % 10] := by
          rw [hsig0, trimZeros_eq_self hu, digitChars_two hh10 (by omega)]
          rfl
        have hlen : (sigBytes s).length = 3 := by rw [hsig]; rfl
        rw [hlen, hsig]
        refine ⟨by omega, rfl, ?_⟩
        rw [rr_wr_snoc _ _ _ _ 2 _ rfl rfl, rr_ch_ge _ _ _ _ hh10 rfl, rt_odd]
        rfl
    · simp only [if_neg hh10]
      have hdv : digits10 s = 7 := by rw [hd, digits10_lt (by omega)]
      have hlt : s / 1000000 < 10 := by omega
      clear hd
      rw [if_neg (fun hc => hh10 hc.1)]
      have hsig : sigBytes s = [48 + s / 1000000] := by
        rw [hsig0, trimZeros_eq_self (by omega), digitChars_lt (by omega)]
        rfl
      have hlen : (sigBytes s).length = 1 := by rw [hsig]; rfl
      rw [hlen, hsig]
      refine ⟨by omega, rfl, ?_⟩
      rw [rr_wr_out _ _ _ _ _ (by omega), rr_ch1_lt _ _ _ _ hlt rfl]
  · rw [if_neg (fun hc => hr (hz1.mp hc))]
    obtain ⟨hp1, hinv2⟩ := pair_step (m := 4) hinv1
    have hp1b : hi32 (u32 (s * 281474978 / 2 ^ 16) * 100) = s % 1000000 / 10000 := by
      rw [hp1]; omega
    rw [hp1b]
    have hz2 : (u32 (u32 (s * 281474978 / 2 ^ 16) * 100) ≤ 2 ^ 32 / 10000) ↔ s % 10000 = 0 := by
      have h := zero_iff hinv2 (by norm_num)
      norm_num at h ⊢
      exact h
    have hsplit : sigBytes s
        = dotted (digitChars (s / 1000000)) ++ dropZeros (padChars (s % 1000000) 6) := by
      have h5 : s = (s / 1000000) * 10 ^ 6 + s % 1000000 := by omega
      conv_lhs => rw [h5]
      exact sigBytes_split _ (by omega) (by omega) (by omega)
    clear hz1 hinv1 hp1 hp1b
    by_cases hh10 : 10 ≤ s / 1000000
    · simp only [if_pos hh10]
      have hdv : digits10 s = 8 := by rw [hd, digits10_two hh10 (by omega)]
      clear hd
      have hhd : dotted (digitChars (s / 1000000))
          = [48 + s / 1000000 / 10, 46, 48 + s / 1000000 % 10] := by
        rw [digitChars_two hh10 (by omega)]
        rfl
      by_cases hr2 : s % 10000 = 0
      · rw [if_pos (hz2.mpr hr2)]
        clear hz2 hinv2
        by_cases hu1 : s % 1000000 / 10000 % 10 = 0
        ·
          have hdz : dropZeros (padChars (s % 1000000) 6) = padChars (s % 1000000 / 100000) 1 := by
            conv_lhs => rw [show s % 1000000 = (s % 1000000 / 100000) * 10 ^ 5 by omega]
            rw [dropZeros_padChars 5 6 (by omega) (by omega)]
          rw [hsplit, hhd, hdz, padChars_1]
          rw [show ([48 + s / 1000000 / 10, 46, 48 + s / 1000000 % 10]
                ++ [48 + s % 1000000 / 100000 % 10]).length = 4 from rfl]
          refine ⟨by omega, ?_, ?_⟩
          · rw [show pos + 1 + 3 = pos + 1 + 2 + 1 from rfl, p2_at1,
                if_neg (show ¬ 48 < 48 + (s % 1000000 / 10000) % 10 by omega)]
          ·
            rw [rr_p2_snoc1 _ _ _ _ 3 _ rfl rfl,
                rr_wr_snoc _ _ _ _ 2 _ rfl rfl,
                rr_ch_ge _ _ _ _ hh10 rfl,
                rt_odd]
            simp only [List.append_assoc, List.cons_append, List.nil_append,
              List.cons.injEq, and_true, true_and]
            omega
        ·
          have hdz : dropZeros (padChars (s % 1000000) 6) = padChars (s % 1000000 / 10000) 2 := by
            conv_lhs => rw [show s % 1000000 = (s % 1000000 / 10000) * 10 ^ 4 by omega]
            rw [dropZeros_padChars 4 6 (by omega) (by omega)]
          rw [hsplit, hhd, hdz, padChars_2]
          rw [show ([48 + s / 1000000 / 10, 46, 48 + s / 1000000 % 10]
                ++ [48 + s % 1000000 / 10000 / 10 % 10, 48 + s % 1000000 / 10000 % 10]).length = 5 from rfl]
          refine ⟨by omega, ?_, ?_⟩
          · rw [show pos + 1 + 3 = pos + 1 + 2 + 1 from rfl, p2_at1,
                if_pos (show 48 < 48 + (s % 1000000 / 10000) % 10 by omega)]
          ·
            rw [rr_p2_snoc _ _ _ _ 3 _ rfl rfl,
                rr_wr_snoc _ _ _ _ 2 _ rfl rfl,
                rr_ch_ge _ _ _ _ hh10 rfl,
                rt_odd]
            simp only [List.append_assoc, List.cons_append, List.nil_append,
              List.cons.injEq, and_true, true_and]
            omega
      · rw [if_neg (fun hc => hr2 (hz2.mp hc))]
        obtain ⟨hp2, hinv3⟩ := pair_step (m := 2) hinv2
        have hp2b : hi32 (u32 (u32 (s * 281474978 / 2 ^ 16) * 100) * 100) = s % 10000 / 100 := by
          rw [hp2]; omega
        rw [hp2b]
        have hz3 : (u32 (u32 (u32 (s * 281474978 / 2 ^ 16) * 100) * 100) ≤ 2 ^ 32 / 100) ↔ s % 100 = 0 := by
          have h := zero_iff hinv3 (by norm_num)
          norm_num at h ⊢
          exact h
        clear hz2 hinv2 hp2 hp2b
        by_cases hr3 : s % 100 = 0
        · rw [if_pos (hz3.mpr hr3)]
          clear hz3 hinv3
          by_cases hu2 : s % 10000 / 100 % 10 = 0
          ·
            have hdz : dropZeros (padChars (s % 1000000) 6) = padChars (s % 1000000 / 1000) 3 := by
              conv_lhs => rw [show s % 1000000 = (s % 1000000 / 1000) * 10 ^ 3 by omega]
              rw [dropZeros_padChars 3 6 (by omega) (by omega)]
            rw [hsplit, hhd, hdz, padChars_3]
            rw [show ([48 + s / 1000000 / 10, 46, 48 + s / 1000000 % 10]
                  ++ [48 + s % 1000000 / 1000 / 100 % 10, 48 + s % 1000000 / 1000 / 10 % 10, 48 + s % 1000000 / 1000 % 10]).length = 6 from rfl]
            refine ⟨by omega, ?_, ?_⟩
            · rw [show pos + 1 + 5 = pos + 1 + 4 + 1 from rfl, p2_at1,
                  if_neg (show ¬ 48 < 48 + (s % 10000 / 100) % 10 by omega)]
            ·
              rw [rr_p2_snoc1 _ _ _ _ 5 _ rfl rfl,
                  rr_p2_snoc _ _ _ _ 3 _ rfl rfl,
                  rr_wr_snoc _ _ _ _ 2 _ rfl rfl,
                  rr_ch_ge _ _ _ _ hh10 rfl,
                  rt_odd]
              simp only [List.append_assoc, List.cons_append, List.nil_append,
                List.cons.injEq, and_true, true_and]
              omega
          ·
            have hdz : dropZeros (padChars (s % 1000000) 6) = padChars (s % 1000000 / 100) 4 := by
              conv_lhs => rw [show s % 1000000 = (s % 1000000 / 100) * 10 ^ 2 by omega]
              rw [dropZeros_padChars 2 6 (by omega) (by omega)]
            rw [hsplit, hhd, hdz, padChars_4]
            rw [show ([48 + s / 1000000 / 10, 46, 48 + s / 1000000 % 10]
                  ++ [48 + s % 1000000 / 100 / 1000 % 10, 48 + s % 1000000 / 100 / 100 % 10, 48 + s % 1000000 / 100 / 10 % 10, 48 + s % 1000000 / 100 % 10]).length = 7 from rfl]
            refine ⟨by omega, ?_, ?_⟩
            · rw [show pos + 1 + 5 = pos + 1 + 4 + 1 from rfl, p2_at1,
                  if_pos (show 48 < 48 + (s % 10000 / 100) % 10 by omega)]
            ·
              rw [rr_p2_snoc _ _ _ _ 5 _ rfl rfl,
                  rr_p2_snoc _ _ _ _ 3 _ rfl rfl,
                  rr_wr_snoc _ _ _ _ 2 _ rfl rfl,
                  rr_ch_ge _ _ _ _ hh10 rfl,
                  rt_odd]
              simp only [List.append_assoc, List.cons_append, List.nil_append,
                List.cons.injEq, and_true, true_and]
              omega
        · rw [if_neg (fun hc => hr3 (hz3.mp hc))]
          obtain ⟨hp3, -⟩ := pair_step (m := 0) hinv3
          have hp3b : hi32 (u32 (u32 (u32 (s * 281474978 / 2 ^ 16) * 100) * 100) * 100) = s % 100 := by
            rw [hp3]; omega
          rw [hp3b]
          clear hz3 hinv3 hp3 hp3b
          by_cases hlast : s % 10 = 0
          ·
            have hdz : dropZeros (padChars (s % 1000000) 6) = padChars (s % 1000000 / 10) 5 := by
              conv_lhs => rw [show s % 1000000 = (s % 1000000 / 10) * 10 ^ 1 by omega]
              rw [dropZeros_padChars 1 6 (by omega) (by omega)]
            rw [hsplit, hhd, hdz, padChars_5]
            rw [show ([48 + s / 1000000 / 10, 46, 48 + s / 1000000 % 10]
                  ++ [48 + s % 1000000 / 10 / 10000 % 10, 48 + s % 1000000 / 10 / 1000 % 10, 48 + s % 1000000 / 10 / 100 % 10, 48 + s % 1000000 / 10 / 10 % 10, 48 + s % 1000000 / 10 % 10]).length = 8 from rfl]
            refine ⟨by omega, ?_, ?_⟩
            · rw [show pos + 1 + 7 = pos + 1 + 6 + 1 from rfl, p2_at1,
                  if_neg (show ¬ 48 < 48 + (s % 100) % 10 by omega)]
            ·
              rw [rr_p2_snoc1 _ _ _ _ 7 _ rfl rfl,
                  rr_p2_snoc _ _ _ _ 5 _ rfl rfl,
                  rr_p2_snoc _ _ _ _ 3 _ rfl rfl,
                  rr_wr_snoc _ _ _ _ 2 _ rfl rfl,
                  rr_ch_ge _ _ _ _ hh10 rfl,
                  rt_odd]
              simp only [List.append_assoc, List.cons_append, List.nil_append,
                List.cons.injEq, and_true, true_and]
              omega
          ·
            have hdz : dropZeros (padChars (s % 1000000) 6) = padChars (s % 1000000) 6 := by
              exact padChars_last 5 (by omega)
            rw [hsplit, hhd, hdz, padChars_6]
            rw [show ([48 + s / 1000000 / 10, 46, 48 + s / 1000000 % 10]
                  ++ [48 + s % 1000000 / 100000 % 10, 48 + s % 1000000 / 10000 % 10, 48 + s % 1000000 / 1000 % 10, 48 + s % 1000000 / 100 % 10, 48 + s % 1000000 / 10 % 10, 48 + s % 1000000 % 10]).length = 9 from rfl]
            refine ⟨by omega, ?_, ?_⟩
            · rw [show pos + 1 + 7 = pos + 1 + 6 + 1 from rfl, p2_at1,
                  if_pos (show 48 < 48 + (s % 100) % 10 by omega)]
            ·
              rw [rr_p2_snoc _ _ _ _ 7 _ rfl rfl,
                  rr_p2_snoc _ _ _ _ 5 _ rfl rfl,
                  rr_p2_snoc _ _ _ _ 3 _ rfl rfl,
                  rr_wr_snoc _ _ _ _ 2 _ rfl rfl,
                  rr_ch_ge _ _ _ _ hh10 rfl,
                  rt_odd]
              simp only [List.append_assoc, List.cons_append, List.nil_append,
                List.cons.injEq, and_true, true_and]
              omega
    · simp only [if_neg hh10]
      have hdv : digits10 s = 7 := by rw [hd, digits10_lt (by omega)]
      have hlt : s / 1000000 < 10 := by omega
      clear hd
      have hhd : dotted (digitChars (s / 1000000)) = [48 + s / 1000000, 46] := by
        rw [digitChars_lt (by omega)]
        rfl
      by_cases hr2 : s % 10000 = 0
      · rw [if_pos (hz2.mpr hr2)]
        clear hz2 hinv2
        by_cases hu1 : s % 1000000 / 10000 % 10 = 0
        ·
          have hdz : dropZeros (padChars (s % 1000000) 6) = padChars (s % 1000000 / 100000) 1 := by
            conv_lhs => rw [show s % 1000000 = (s % 1000000 / 100000) * 10 ^ 5 by omega]
            rw [dropZeros_padChars 5 6 (by omega) (by omega)]
          rw [hsplit, hhd, hdz, padChars_1]
          rw [show ([48 + s / 1000000, 46]
                ++ [48 + s % 1000000 / 100000 % 10]).length = 3 from rfl]
          refine ⟨by omega, ?_, ?_⟩
          · rw [show pos + 0 + 3 = pos + 0 + 2 + 1 from rfl, p2_at1,
                if_neg (show ¬ 48 < 48 + (s % 1000000 / 10000) % 10 by omega)]
          ·
            rw [rr_p2_snoc1 _ _ _ _ 2 _ rfl rfl,
                rr_wr_out _ _ _ _ _ (by omega),
                rr_ch_lt _ _ _ _ hlt rfl]
            simp only [List.append_assoc, List.cons_append, List.nil_append,
              List.cons.injEq, and_true, true_and]
            omega
        ·
          have hdz : dropZeros (padChars (s % 1000000) 6) = padChars (s % 1000000 / 10000) 2 := by
            conv_lhs => rw [show s % 1000000 = (s % 1000000 / 10000) * 10 ^ 4 by omega]
            rw [dropZeros_padChars 4 6 (by omega) (by omega)]
          rw [hsplit, hhd, hdz, padChars_2]
          rw [show ([48 + s / 1000000, 46]
                ++ [48 + s % 1000000 / 10000 / 10 % 10, 48 + s % 1000000 / 10000 % 10]).length = 4 from rfl]
          refine ⟨by omega, ?_, ?_⟩
          · rw [show pos + 0 + 3 = pos + 0 + 2 + 1 from rfl, p2_at1,
                if_pos (show 48 < 48 + (s % 1000000 / 10000) % 10 by omega)]
          ·
            rw [rr_p2_snoc _ _ _ _ 2 _ rfl rfl,
                rr_wr_out _ _ _ _ _ (by omega),
                rr_ch_lt _ _ _ _ hlt rfl]
            simp only [List.append_assoc, List.cons_append, List.nil_append,
              List.cons.injEq, and_true, true_and]
            omega
      · rw [if_neg (fun hc => hr2 (hz2.mp hc))]
        obtain ⟨hp2, hinv3⟩ := pair_step (m := 2) hinv2
        have hp2b : hi32 (u32 (u32 (s * 281474978 / 2 ^ 16) * 100) * 100) = s % 10000 / 100 := by
          rw [hp2]; omega
        rw [hp2b]
        have hz3 : (u32 (u32 (u32 (s * 281474978 / 2 ^ 16) * 100) * 100) ≤ 2 ^ 32 / 100) ↔ s % 100 = 0 := by
          have h := zero_iff hinv3 (by norm_num)
          norm_num at h ⊢
          exact h
        clear hz2 hinv2 hp2 hp2b
        by_cases hr3 : s % 100 = 0
        · rw [if_pos (hz3.mpr hr3)]
          clear hz3 hinv3
          by_cases hu2 : s % 10000 / 100 % 10 = 0
          ·
            have hdz : dropZeros (padChars (s % 1000000) 6) = padChars (s % 1000000 / 1000) 3 := by
              conv_lhs => rw [show s % 1000000 = (s % 1000000 / 1000) * 10 ^ 3 by omega]
              rw [dropZeros_padChars 3 6 (by omega) (by omega)]
            rw [hsplit, hhd, hdz, padChars_3]
            rw [show ([48 + s / 1000000, 46]
                  ++ [48 + s % 1000000 / 1000 / 100 % 10, 48 + s % 1000000 / 1000 / 10 % 10, 48 + s % 1000000 / 1000 % 10]).length = 5 from rfl]
            refine ⟨by omega, ?_, ?_⟩
            · rw [show pos + 0 + 5 = pos + 0 + 4 + 1 from rfl, p2_at1,
                  if_neg (show ¬ 48 < 48 + (s % 10000 / 100) % 10 by omega)]
            ·
              rw [rr_p2_snoc1 _ _ _ _ 4 _ rfl rfl,
                  rr_p2_snoc _ _ _ _ 2 _ rfl rfl,
                  rr_wr_out _ _ _ _ _ (by omega),
                  rr_ch_lt _ _ _ _ hlt rfl]
              simp only [List.append_assoc, List.cons_append, List.nil_append,
                List.cons.injEq, and_true, true_and]
              omega
          ·
            have hdz : dropZeros (padChars (s % 1000000) 6) = padChars (s % 1000000 / 100) 4 := by
              conv_lhs => rw [show s % 1000000 = (s % 1000000 / 100) * 10 ^ 2 by omega]
              rw [dropZeros_padChars 2 6 (by omega) (by omega)]
            rw [hsplit, hhd, hdz, padChars_4]
            rw [show ([48 + s / 1000000, 46]
                  ++ [48 + s % 1000000 / 100 / 1000 % 10, 48 + s % 1000000 / 100 / 100 % 10, 48 + s % 1000000 / 100 / 10 % 10, 48 + s % 1000000 / 100 % 10]).length = 6 from rfl]
            refine ⟨by omega, ?_, ?_⟩
            · rw [show pos + 0 + 5 = pos + 0 + 4 + 1 from rfl, p2_at1,
                  if_pos (show 48 < 48 + (s % 10000 / 100) % 10 by omega)]
            ·
              rw [rr_p2_snoc _ _ _ _ 4 _ rfl rfl,
                  rr_p2_snoc _ _ _ _ 2 _ rfl rfl,
                  rr_wr_out _ _ _ _ _ (by omega),
                  rr_ch_lt _ _ _ _ hlt rfl]
              simp only [List.append_assoc, List.cons_append, List.nil_append,
                List.cons.injEq, and_true, true_and]
              omega
        · rw [if_neg (fun hc => hr3 (hz3.mp hc))]
          obtain ⟨hp3, -⟩ := pair_step (m := 0) hinv3
          have hp3b : hi32 (u32 (u32 (u32 (s * 281474978 / 2 ^ 16) * 100) * 100) * 100) = s % 100 := by
            rw [hp3]; omega
          rw [hp3b]
          clear hz3 hinv3 hp3 hp3b
          by_cases hlast : s % 10 = 0
          ·
            have hdz : dropZeros (padChars (s % 1000000) 6) = padChars (s % 1000000 / 10) 5 := by
              conv_lhs => rw [show s % 1000000 = (s % 1000000 / 10) * 10 ^ 1 by omega]
              rw [dropZeros_padChars 1 6 (by omega) (by omega)]
            rw [hsplit, hhd, hdz, padChars_5]
            rw [show ([48 + s / 1000000, 46]
                  ++ [48 + s % 1000000 / 10 / 10000 % 10, 48 + s % 1000000 / 10 / 1000 % 10, 48 + s % 1000000 / 10 / 100 % 10, 48 + s % 1000000 / 10 / 10 % 10, 48 + s % 1000000 / 10 % 10]).length = 7 from rfl]
            refine ⟨by omega, ?_, ?_⟩
            · rw [show pos + 0 + 7 = pos + 0 + 6 + 1 from rfl, p2_at1,
                  if_neg (show ¬ 48 < 48 + (s % 100) % 10 by omega)]
            ·
              rw [rr_p2_snoc1 _ _ _ _ 6 _ rfl rfl,
                  rr_p2_snoc _ _ _ _ 4 _ rfl rfl,
                  rr_p2_snoc _ _ _ _ 2 _ rfl rfl,
                  rr_wr_out _ _ _ _ _ (by omega),
                  rr_ch_lt _ _ _ _ hlt rfl]
              simp only [List.append_assoc, List.cons_append, List.nil_append,
                List.cons.injEq, and_true, true_and]
              omega
          ·
            have hdz : dropZeros (padChars (s % 1000000) 6) = padChars (s % 1000000) 6 := by
              exact padChars_last 5 (by omega)
            rw [hsplit, hhd, hdz, padChars_6]
            rw [show ([48 + s / 1000000, 46]
                  ++ [48 + s % 1000000 / 100000 % 10, 48 + s % 1000000 / 10000 % 10, 48 + s % 1000000 / 1000 % 10, 48 + s % 1000000 / 100 % 10, 48 + s % 1000000 / 10 % 10, 48 + s % 1000000 % 10]).length = 8 from rfl]
            refine ⟨by omega, ?_, ?_⟩
            · rw [show pos + 0 + 7 = pos + 0 + 6 + 1 from rfl, p2_at1,
                  if_pos (show 48 < 48 + (s % 100) % 10 by omega)]
            ·
              rw [rr_p2_snoc _ _ _ _ 6 _ rfl rfl,
                  rr_p2_snoc _ _ _ _ 4 _ rfl rfl,
                  rr_p2_snoc _ _ _ _ 2 _ rfl rfl,
                  rr_wr_out _ _ _ _ _ (by omega),
                  rr_ch_lt _ _ _ _ hlt rfl]
              simp only [List.append_assoc, List.cons_append, List.nil_append,
                List.cons.injEq, and_true, true_and]
              omega

end Charconv

namespace Charconv

set_option maxHeartbeats 800000 in
theorem p9_band9 (s : Nat) (e : Int) (pos : Nat) (b : Buf)
    (h1 : 100000000 ≤ s) (h2 : s ≤ 999999999) (h3 : s % 10 ≠ 0) :
    (print_9_digits s e pos b).1 = e + (digits10 s : Int) - 1 ∧
    (print_9_digits s e pos b).2.1 = pos + (sigBytes s).length ∧
    readRange (print_9_digits s e pos b).2.2 pos (sigBytes s).length = sigBytes s := by
  unfold print_9_digits
  rw [if_pos h1]
  simp only []
  obtain ⟨c1, c2⟩ := seed9 h1 h2
  obtain ⟨hhead, hinv1⟩ := seed_split 8 _ s c1 c2
  clear c1 c2
  have hhead2 : hi32 (s * 1441151882 / 2 ^ 25) = s / 100000000 := by
    rw [hhead]; norm_num
  rw [hhead2]
  clear hhead hhead2
  obtain ⟨hp1, hinv2⟩ := pair_step (m := 6) hinv1
  have hp1b : hi32 (u32 (s * 1441151882 / 2 ^ 25) * 100) = s % 100000000 / 1000000 := by
    rw [hp1]; norm_num
  rw [hp1b]
  clear hinv1 hp1
  obtain ⟨hp2, hinv3⟩ := pair_step (m := 4) hinv2
  have hp2b : hi32 (u32 (u32 (s * 1441151882 / 2 ^ 25) * 100) * 100)
      = s % 1000000 / 10000 := by
    rw [hp2]; omega
  rw [hp2b]
  clear hinv2 hp2 hp1b
  obtain ⟨hp3, hinv4⟩ := pair_step (m := 2) hinv3
  have hp3b : hi32 (u32 (u32 (u32 (s * 1441151882 / 2 ^ 25) * 100) * 100) * 100)
      = s % 10000 / 100 := by
    rw [hp3]; omega
  rw [hp3b]
  clear hinv3 hp3 hp2b
  obtain ⟨hp4, -⟩ := pair_step (m := 0) hinv4
  have hp4b : hi32 (u32 (u32 (u32 (u32 (s * 1441151882 / 2 ^ 25) * 100) * 100) * 100) * 100)
      = s % 100 := by
    rw [hp4]; omega
  rw [hp4b]
  clear hinv4 hp4 hp3b
  have hdv : digits10 s = 9 := by
    conv_lhs => rw [show s = s / 100000000 * 10 ^ 8 + s % 100000000 by omega]
    rw [digits10_mul_add _ (by omega) (by omega), digits10_lt (by omega)]
  have hlt : s / 100000000 < 10 := by omega
  have hsig : sigBytes s
      = dotted (digitChars (s / 100000000)) ++ padChars (s % 100000000) 8 := by
    conv_lhs => rw [show s = s / 100000000 * 10 ^ 8 + s % 100000000 by omega]
    exact sigBytes_dense _ (by omega) (by omega) (by omega) (by omega)
  have hhd : dotted (digitChars (s / 100000000)) = [48 + s / 100000000, 46] := by
    rw [digitChars_lt (by omega)]
    rfl
  rw [hsig, hhd, padChars_8]
  rw [show ([48 + s / 100000000, 46]
      ++ [48 + s % 100000000 / 10000000 % 10, 48 + s % 100000000 / 1000000 % 10,
          48 + s % 100000000 / 100000 % 10, 48 + s % 100000000 / 10000 % 10,
          48 + s % 100000000 / 1000 % 10, 48 + s % 100000000 / 100 % 10,
          48 + s % 100000000 / 10 % 10, 48 + s % 100000000 % 10]).length = 10 from rfl]
  refine ⟨by omega, rfl, ?_⟩
  rw [rr_p2_snoc _ _ _ _ 8 _ rfl rfl,
      rr_p2_snoc _ _ _ _ 6 _ rfl rfl,
      rr_p2_snoc _ _ _ _ 4 _ rfl rfl,
      rr_p2_snoc _ _ _ _ 2 _ rfl rfl,
      rr_ch_lt _ _ _ _ hlt rfl]
  simp only [List.append_assoc, List.cons_append, List.nil_append,
    List.cons.injEq, and_true, true_and]
  omega

end Charconv

namespace Charconv

/-! ## Assembled characterization of print_9_digits -/

/-- Bytes outside the window [pos, pos+10) are never touched, in any band. -/
theorem p9_frame (s : Nat) (e : Int) (pos : Nat) (b : Buf) (j : Nat)
    (hj : j < pos ∨ pos + 10 ≤ j) :
    (print_9_digits s e pos b).2.2 j = b j := by
  unfold print_9_digits
  simp only []
  split_ifs <;>
    simp only [] <;>
    first
      | rfl
      | (repeat first
          | rw [p2_ne _ _ _ (by omega) (by omega)]
          | rw [wr_ne _ _ (by omega)]
          | rw [ch_ne _ _ _ (by omega) (by omega)])

/-- The returned cursor advances by at least 1 and at most 10 bytes. -/
theorem p9_ret (s : Nat) (e : Int) (pos : Nat) (b : Buf) :
    pos + 1 ≤ (print_9_digits s e pos b).2.1 ∧
    (print_9_digits s e pos b).2.1 ≤ pos + 10 := by
  unfold print_9_digits
  simp only []
  split_ifs <;> simp only [] <;> omega

/-- Full characterization of the 32-bit shortest-digit engine: text, cursor
and exponent, for any significand the callers can pass (9-digit inputs carry
no trailing zeros). -/
theorem p9_spec (s : Nat) (e : Int) (pos : Nat) (b : Buf)
    (h1 : 1 ≤ s) (h2 : s ≤ 999999999) (h3 : 100000000 ≤ s → s % 10 ≠ 0) :
    (print_9_digits s e pos b).1 = e + (digits10 s : Int) - 1 ∧
    (print_9_digits s e pos b).2.1 = pos + (sigBytes s).length ∧
    readRange (print_9_digits s e pos b).2.2 pos (sigBytes s).length = sigBytes s := by
  by_cases h9 : 100000000 ≤ s
  · exact p9_band9 s e pos b h9 h2 (h3 h9)
  · by_cases h78 : 1000000 ≤ s
    · exact p9_band78 s e pos b h78 (by omega)
    · by_cases h56 : 10000 ≤ s
      · exact p9_band56 s e pos b h56 (by omega)
      · by_cases h34 : 100 ≤ s
        · exact p9_band34 s e pos b h34 (by omega)
        · exact p9_band12 s e pos b h1 (by omega)

/-- The exponent update alone needs no trailing-zero restriction: every band
adds digits10 s - 1, independent of how much text is trimmed. -/
theorem p9_expo (s : Nat) (e : Int) (pos : Nat) (b : Buf)
    (h1 : 1 ≤ s) (h2 : s ≤ 999999999) :
    (print_9_digits s e pos b).1 = e + (digits10 s : Int) - 1 := by
  by_cases h9 : 100000000 ≤ s
  · have hdv : digits10 s = 9 := by
      conv_lhs => rw [show s = s / 100000000 * 10 ^ 8 + s % 100000000 by omega]
      rw [digits10_mul_add _ (by omega) (by omega), digits10_lt (by omega)]
    unfold print_9_digits
    rw [if_pos h9]
    simp only []
    omega
  · by_cases h78 : 1000000 ≤ s
    · exact (p9_band78 s e pos b h78 (by omega)).1
    · by_cases h56 : 10000 ≤ s
      · exact (p9_band56 s e pos b h56 (by omega)).1
      · by_cases h34 : 100 ≤ s
        · exact (p9_band34 s e pos b h34 (by omega)).1
        · exact (p9_band12 s e pos b h1 (by omega)).1

end Charconv

namespace Charconv

/-! ## Characterization of print_second_block -/

theorem rr_p2_term (n q L : Nat) (b : Buf) (hL : L = 2) :
    readRange (print_2_digits n q b) q L = [48 + n / 10, 48 + n % 10] := by
  subst hL
  rw [rr2, p2_at0, p2_at1]

theorem rr_p2_one (n q L : Nat) (b : Buf) (hL : L = 1) :
    readRange (print_2_digits n q b) q L = [48 + n / 10] := by
  subst hL
  rw [rr1, p2_at0]

/-- Bytes outside the window [pos, pos+8) are never touched by the
second-block printer. -/
theorem psb_frame (sb pos : Nat) (b : Buf) (j : Nat)
    (hj : j < pos ∨ pos + 8 ≤ j) :
    (print_second_block sb pos b).2 j = b j := by
  unfold print_second_block
  simp only []
  split_ifs <;>
    simp only [] <;>
    first
      | rfl
      | (repeat rw [p2_ne _ _ _ (by omega) (by omega)])

/-- The second-block printer advances the cursor by 1 to 8 bytes. -/
theorem psb_ret (sb pos : Nat) (b : Buf) :
    pos + 1 ≤ (print_second_block sb pos b).1 ∧
    (print_second_block sb pos b).1 ≤ pos + 8 := by
  unfold print_second_block
  simp only []
  split_ifs <;> simp only [] <;> omega

set_option maxHeartbeats 800000 in
/-- The second-block printer emits the zero-padded 8-digit text of sb with
trailing zeros removed, returning the cursor one past the last byte. -/
theorem psb_spec (sb pos : Nat) (b : Buf) (h1 : 1 ≤ sb) (h2 : sb < 100000000) :
    (print_second_block sb pos b).1 = pos + (dropZeros (padChars sb 8)).length ∧
    readRange (print_second_block sb pos b).2 pos (dropZeros (padChars sb 8)).length
      = dropZeros (padChars sb 8) := by
  unfold print_second_block
  simp only []
  obtain ⟨c1, c2⟩ := seedSB h2
  obtain ⟨hp1, hinv1⟩ := seed_split 6 _ sb c1 c2
  clear c1 c2
  have hp1b : hi32 (sb * 281474978 / 2 ^ 16 + 1) = sb / 1000000 := by
    rw [hp1]; norm_num
  rw [hp1b]
  have hz1 : (u32 (sb * 281474978 / 2 ^ 16 + 1) ≤ 2 ^ 32 / 1000000)
      ↔ sb % 1000000 = 0 := by
    have h := zero_iff hinv1 (by norm_num)
    norm_num at h ⊢
    exact h
  clear hp1 hp1b
  by_cases hr1 : sb % 1000000 = 0
  · rw [if_pos (hz1.mpr hr1)]
    clear hz1 hinv1
    by_cases hu1 : sb / 1000000 % 10 = 0
    · have hdz : dropZeros (padChars sb 8) = padChars (sb / 10000000) 1 := by
        conv_lhs => rw [show sb = sb / 10000000 * 10 ^ 7 by omega]
        rw [dropZeros_padChars 7 8 (by omega) (by omega)]
      rw [hdz, padChars_length]
      refine ⟨?_, ?_⟩
      · rw [p2_at1, if_neg (show ¬ 48 < 48 + (sb / 1000000) % 10 by omega)]
      · rw [padChars_1, rr_p2_one _ _ _ _ rfl]
        simp only [List.cons.injEq, and_true, true_and]
        omega
    · have hdz : dropZeros (padChars sb 8) = padChars (sb / 1000000) 2 := by
        conv_lhs => rw [show sb = sb / 1000000 * 10 ^ 6 by omega]
        rw [dropZeros_padChars 6 8 (by omega) (by omega)]
      rw [hdz, padChars_length]
      refine ⟨?_, ?_⟩
      · rw [p2_at1, if_pos (show 48 < 48 + (sb / 1000000) % 10 by omega)]
      · rw [padChars_2, rr_p2_term _ _ _ _ rfl]
        simp only [List.cons.injEq, and_true, true_and]
        omega
  · rw [if_neg (fun hc => hr1 (hz1.mp hc))]
    obtain ⟨hp2, hinv2⟩ := pair_step (m := 4) hinv1
    have hp2b : hi32 (u32 (sb * 281474978 / 2 ^ 16 + 1) * 100)
        = sb % 1000000 / 10000 := by
      rw [hp2]; omega
    rw [hp2b]
    have hz2 : (u32 (u32 (sb * 281474978 / 2 ^ 16 + 1) * 100) ≤ 2 ^ 32 / 10000)
        ↔ sb % 10000 = 0 := by
      have h := zero_iff hinv2 (by norm_num)
      norm_num at h ⊢
      exact h
    clear hz1 hinv1 hp2 hp2b
    by_cases hr2 : sb % 10000 = 0
    · rw [if_pos (hz2.mpr hr2)]
      clear hz2 hinv2
      by_cases hu2 : sb % 1000000 / 10000 % 10 = 0
      · have hdz : dropZeros (padChars sb 8) = padChars (sb / 100000) 3 := by
          conv_lhs => rw [show sb = sb / 100000 * 10 ^ 5 by omega]
          rw [dropZeros_padChars 5 8 (by omega) (by omega)]
        rw [hdz, padChars_length]
        refine ⟨?_, ?_⟩
        · rw [show pos + 3 = pos + 2 + 1 from rfl, p2_at1,
              if_neg (show ¬ 48 < 48 + (sb % 1000000 / 10000) % 10 by omega)]
        · rw [padChars_3, rr_p2_snoc1 _ _ _ _ 2 _ rfl rfl, rr_p2_term _ _ _ _ rfl]
          simp only [List.append_assoc, List.cons_append, List.nil_append,
            List.cons.injEq, and_true, true_and]
          omega
      · have hdz : dropZeros (padChars sb 8) = padChars (sb / 10000) 4 := by
          conv_lhs => rw [show sb = sb / 10000 * 10 ^ 4 by omega]
          rw [dropZeros_padChars 4 8 (by omega) (by omega)]
        rw [hdz, padChars_length]
        refine ⟨?_, ?_⟩
        · rw [show pos + 3 = pos + 2 + 1 from rfl, p2_at1,
              if_pos (show 48 < 48 + (sb % 1000000 / 10000) % 10 by omega)]
        · rw [padChars_4, rr_p2_snoc _ _ _ _ 2 _ rfl rfl, rr_p2_term _ _ _ _ rfl]
          simp only [List.append_assoc, List.cons_append, List.nil_append,
            List.cons.injEq, and_true, true_and]
          omega
    · rw [if_neg (fun hc => hr2 (hz2.mp hc))]
      obtain ⟨hp3, hinv3⟩ := pair_step (m := 2) hinv2
      have hp3b : hi32 (u32 (u32 (sb * 281474978 / 2 ^ 16 + 1) * 100) * 100)
          = sb % 10000 / 100 := by
        rw [hp3]; omega
      rw [hp3b]
      have hz3 : (u32 (u32 (u32 (sb * 281474978 / 2 ^ 16 + 1) * 100) * 100) ≤ 2 ^ 32 / 100)
          ↔ sb % 100 = 0 := by
        have h := zero_iff hinv3 (by norm_num)
        norm_num at h ⊢
        exact h
      clear hz2 hinv2 hp3 hp3b
      by_cases hr3 : sb % 100 = 0
      · rw [if_pos (hz3.mpr hr3)]
        clear hz3 hinv3
        by_cases hu3 : sb % 10000 / 100 % 10 = 0
        · have hdz : dropZeros (padChars sb 8) = padChars (sb / 1000) 5 := by
            conv_lhs => rw [show sb = sb / 1000 * 10 ^ 3 by omega]
            rw [dropZeros_padChars 3 8 (by omega) (by omega)]
          rw [hdz, padChars_length]
          refine ⟨?_, ?_⟩
          · rw [show pos + 5 = pos + 4 + 1 from rfl, p2_at1,
                if_neg (show ¬ 48 < 48 + (sb % 10000 / 100) % 10 by omega)]
          · rw [padChars_5, rr_p2_snoc1 _ _ _ _ 4 _ rfl rfl,
                rr_p2_snoc _ _ _ _ 2 _ rfl rfl, rr_p2_term _ _ _ _ rfl]
            simp only [List.append_assoc, List.cons_append, List.nil_append,
              List.cons.injEq, and_true, true_and]
            omega
        · have hdz : dropZeros (padChars sb 8) = padChars (sb / 100) 6 := by
            conv_lhs => rw [show sb = sb / 100 * 10 ^ 2 by omega]
            rw [dropZeros_padChars 2 8 (by omega) (by omega)]
          rw [hdz, padChars_length]
          refine ⟨?_, ?_⟩
          · rw [show pos + 5 = pos + 4 + 1 from rfl, p2_at1,
                if_pos (show 48 < 48 + (sb % 10000 / 100) % 10 by omega)]
          · rw [padChars_6, rr_p2_snoc _ _ _ _ 4 _ rfl rfl,
                rr_p2_snoc _ _ _ _ 2 _ rfl rfl, rr_p2_term _ _ _ _ rfl]
            simp only [List.append_assoc, List.cons_append, List.nil_append,
              List.cons.injEq, and_true, true_and]
            omega
      · rw [if_neg (fun hc => hr3 (hz3.mp hc))]
        obtain ⟨hp4, -⟩ := pair_step (m := 0) hinv3
        have hp4b : hi32 (u32 (u32 (u32 (sb * 281474978 / 2 ^ 16 + 1) * 100) * 100) * 100)
            = sb % 100 := by
          rw [hp4]; omega
        rw [hp4b]
        clear hz3 hinv3 hp4
        by_cases hlast : sb % 10 = 0
        · have hdz : dropZeros (padChars sb 8) = padChars (sb / 10) 7 := by
            conv_lhs => rw [show sb = sb / 10 * 10 ^ 1 by omega]
            rw [dropZeros_padChars 1 8 (by omega) (by omega)]
          rw [hdz, padChars_length]
          refine ⟨?_, ?_⟩
          · rw [show pos + 7 = pos + 6 + 1 from rfl, p2_at1,
                if_neg (show ¬ 48 < 48 + (sb % 100) % 10 by omega)]
          · rw [padChars_7, rr_p2_snoc1 _ _ _ _ 6 _ rfl rfl,
                rr_p2_snoc _ _ _ _ 4 _ rfl rfl,
                rr_p2_snoc _ _ _ _ 2 _ rfl rfl, rr_p2_term _ _ _ _ rfl]
            simp only [List.append_assoc, List.cons_append, List.nil_append,
              List.cons.injEq, and_true, true_and]
            omega
        · have hdz : dropZeros (padChars sb 8) = padChars sb 8 :=
            padChars_last 7 (by omega)
          rw [hdz, padChars_length]
          refine ⟨?_, ?_⟩
          · rw [show pos + 7 = pos + 6 + 1 from rfl, p2_at1,
                if_pos (show 48 < 48 + (sb % 100) % 10 by omega)]
          · rw [padChars_8, rr_p2_snoc _ _ _ _ 6 _ rfl rfl,
                rr_p2_snoc _ _ _ _ 4 _ rfl rfl,
                rr_p2_snoc _ _ _ _ 2 _ rfl rfl, rr_p2_term _ _ _ _ rfl]
            simp only [List.append_assoc, List.cons_append, List.nil_append,
              List.cons.injEq, and_true, true_and]
            omega

end Charconv

namespace Charconv

/-! ## The 64-bit digit-emission path -/

theorem first_block_eq (s : Nat) (h : s < 100000000000000000) :
    first_block_of s = s / 100000000 := by
  unfold first_block_of u32
  omega

theorem second_block_eq (s : Nat) (h : s < 100000000000000000) :
    second_block_of s = s % 100000000 := by
  unfold second_block_of first_block_of sub32 u32
  omega

theorem rr_psb_low (sb p2 : Nat) (bd : Buf) (q L : Nat) (h : q + L ≤ p2) :
    readRange (print_second_block sb p2 bd).2 q L = readRange bd q L :=
  readRange_congr fun i hi => psb_frame sb p2 bd (q + i) (Or.inl (by omega))

set_option maxHeartbeats 1600000 in
theorem tcd_mixed78 (s : Nat) (e : Int) (pos : Nat) (b : Buf)
    (hs : 100000000 ≤ s) (h17 : s < 100000000000000000)
    (hsb : s % 100000000 ≠ 0)
    (hfb1 : 1000000 ≤ s / 100000000) (hfb2 : s / 100000000 < 100000000) :
    (to_chars_double_sig s e pos b).1 = e + (digits10 s : Int) - 1 ∧
    (to_chars_double_sig s e pos b).2.1 = pos + (sigBytes s).length ∧
    readRange (to_chars_double_sig s e pos b).2.2 pos (sigBytes s).length = sigBytes s := by
  unfold to_chars_double_sig
  rw [if_pos hs]
  simp only []
  rw [first_block_eq s (by omega), second_block_eq s (by omega)]
  rw [if_neg hsb, if_neg (show ¬ 100000000 ≤ s / 100000000 by omega)]
  rw [if_pos hfb1]
  simp only []
  obtain ⟨c1, c2⟩ := seed78 hfb1 hfb2
  obtain ⟨hhead, hinvA1⟩ := seed_split 6 _ _ c1 c2
  clear c1 c2
  have hhead2 : hi32 (s / 100000000 * 281474978 / 2 ^ 16) = s / 100000000 / 1000000 := by
    rw [hhead]; norm_num
  rw [hhead2]
  clear hhead hhead2
  obtain ⟨hq1, hinvA2⟩ := pair_step (m := 4) hinvA1
  have hq1b : hi32 (u32 (s / 100000000 * 281474978 / 2 ^ 16) * 100) = s / 100000000 % 1000000 / 10000 := by
    rw [hq1]; norm_num
  rw [hq1b]
  clear hinvA1 hq1 hq1b
  obtain ⟨hq2, hinvA3⟩ := pair_step (m := 2) hinvA2
  have hq2b : hi32 (u32 (u32 (s / 100000000 * 281474978 / 2 ^ 16) * 100) * 100) = s / 100000000 % 10000 / 100 := by
    rw [hq2]; omega
  rw [hq2b]
  clear hinvA2 hq2 hq2b
  obtain ⟨hq3, hinvA4⟩ := pair_step (m := 0) hinvA3
  have hq3b : hi32 (u32 (u32 (u32 (s / 100000000 * 281474978 / 2 ^ 16) * 100) * 100) * 100) = s / 100000000 % 100 := by
    rw [hq3]; omega
  rw [hq3b]
  clear hinvA3 hq3 hq3b
  have hds : digits10 s = digits10 (s / 100000000) + 8 := by
    conv_lhs => rw [show s = s / 100000000 * 10 ^ 8 + s % 100000000 by omega]
    rw [digits10_mul_add _ (by omega) (by omega)]
  have hd : digits10 (s / 100000000) = digits10 (s / 100000000 / 1000000) + 6 := by
    conv_lhs => rw [show s / 100000000 = s / 100000000 / 1000000 * 10 ^ 6 + s / 100000000 % 1000000 by omega]
    rw [digits10_mul_add _ (by omega) (by omega)]
  have hsplit : sigBytes s
      = dotted (digitChars (s / 100000000)) ++ dropZeros (padChars (s % 100000000) 8) := by
    conv_lhs => rw [show s = s / 100000000 * 10 ^ 8 + s % 100000000 by omega]
    exact sigBytes_split _ (by omega) (by omega) (by omega)
  have hfbW : digitChars (s / 100000000)
      = digitChars (s / 100000000 / 1000000) ++ padChars (s / 100000000 % 1000000) 6 := by
    conv_lhs => rw [show s / 100000000 = s / 100000000 / 1000000 * 10 ^ 6 + s / 100000000 % 1000000 by omega]
    exact digitChars_mul_add _ (by omega) (by omega)
  by_cases hh10 : 10 ≤ s / 100000000 / 1000000
  · simp only [if_pos hh10]
    have hdv : digits10 s = 16 := by
      rw [hds, hd, digits10_two hh10 (by omega)]
    clear hds hd
    have hhd : dotted (digitChars (s / 100000000))
        = [48 + s / 100000000 / 1000000 / 10, 46, 48 + s / 100000000 / 1000000 % 10]
          ++ padChars (s / 100000000 % 1000000) 6 := by
      rw [hfbW, digitChars_two hh10 (by omega)]
      rfl
    have hlen : (sigBytes s).length
        = 9 + (dropZeros (padChars (s % 100000000) 8)).length := by
      rw [hsplit, hhd]
      simp only [List.length_append, List.cons_append, List.length_cons,
        List.length_nil, padChars_length]
      omega
    refine ⟨by omega, ?_, ?_⟩
    · rw [(psb_spec _ _ _ (by omega) (by omega)).1, hlen]
      omega
    · rw [hlen, hsplit, hhd, readRange_append]
      congr 1
      · rw [rr_psb_low _ _ _ _ _ (by omega), padChars_6]
        rw [rr_p2_snoc _ _ _ _ 7 _ rfl rfl,
              rr_p2_snoc _ _ _ _ 5 _ rfl rfl,
              rr_p2_snoc _ _ _ _ 3 _ rfl rfl,
              rr_wr_snoc _ _ _ _ 2 _ rfl rfl,
              rr_ch_ge _ _ _ _ hh10 rfl,
              rt_odd]
        simp only [List.append_assoc, List.cons_append, List.nil_append,
          List.cons.injEq, and_true, true_and]
        omega
      · rw [show pos + 9 = pos + 1 + 8 from rfl]
        exact (psb_spec _ _ _ (by omega) (by omega)).2
  · simp only [if_neg hh10]
    have hdv : digits10 s = 15 := by
      rw [hds, hd, digits10_lt (by omega)]
    have hlt : s / 100000000 / 1000000 < 10 := by omega
    clear hds hd
    have hhd : dotted (digitChars (s / 100000000))
        = [48 + s / 100000000 / 1000000, 46] ++ padChars (s / 100000000 % 1000000) 6 := by
      rw [hfbW, digitChars_lt (by omega)]
      rfl
    have hlen : (sigBytes s).length
        = 8 + (dropZeros (padChars (s % 100000000) 8)).length := by
      rw [hsplit, hhd]
      simp only [List.length_append, List.cons_append, List.length_cons,
        List.length_nil, padChars_length]
      omega
    refine ⟨by omega, ?_, ?_⟩
    · rw [(psb_spec _ _ _ (by omega) (by omega)).1, hlen]
      omega
    · rw [hlen, hsplit, hhd, readRange_append]
      congr 1
      · rw [rr_psb_low _ _ _ _ _ (by omega), padChars_6]
        rw [rr_p2_snoc _ _ _ _ 6 _ rfl rfl,
              rr_p2_snoc _ _ _ _ 4 _ rfl rfl,
              rr_p2_snoc _ _ _ _ 2 _ rfl rfl,
              rr_wr_out _ _ _ _ _ (by omega),
              rr_ch_lt _ _ _ _ hlt rfl]
        simp only [List.append_assoc, List.cons_append, List.nil_append,
          List.cons.injEq, and_true, true_and]
        omega
      · rw [show pos + 8 = pos + 0 + 8 from rfl]
        exact (psb_spec _ _ _ (by omega) (by omega)).2

set_option maxHeartbeats 1600000 in
theorem tcd_mixed56 (s : Nat) (e : Int) (pos : Nat) (b : Buf)
    (hs : 100000000 ≤ s) (h17 : s < 100000000000000000)
    (hsb : s % 100000000 ≠ 0)
    (hfb1 : 10000 ≤ s / 100000000) (hfb2 : s / 100000000 < 1000000) :
    (to_chars_double_sig s e pos b).1 = e + (digits10 s : Int) - 1 ∧
    (to_chars_double_sig s e pos b).2.1 = pos + (sigBytes s).length ∧
    readRange (to_chars_double_sig s e pos b).2.2 pos (sigBytes s).length = sigBytes s := by
  unfold to_chars_double_sig
  rw [if_pos hs]
  simp only []
  rw [first_block_eq s (by omega), second_block_eq s (by omega)]
  rw [if_neg hsb, if_neg (show ¬ 100000000 ≤ s / 100000000 by omega)]
  rw [if_neg (show ¬ 1000000 ≤ s / 100000000 by omega), if_pos hfb1]
  simp only []
  obtain ⟨c1, c2⟩ := seed56 hfb1 hfb2
  obtain ⟨hhead, hinvA1⟩ := seed_split 4 _ _ c1 c2
  clear c1 c2
  have hhead2 : hi32 (s / 100000000 * 429497) = s / 100000000 / 10000 := by
    rw [hhead]; norm_num
  rw [hhead2]
  clear hhead hhead2
  obtain ⟨hq1, hinvA2⟩ := pair_step (m := 2) hinvA1
  have hq1b : hi32 (u32 (s / 100000000 * 429497) * 100) = s / 100000000 % 10000 / 100 := by
    rw [hq1]; norm_num
  rw [hq1b]
  clear hinvA1 hq1 hq1b
  obtain ⟨hq2, hinvA3⟩ := pair_step (m := 0) hinvA2
  have hq2b : hi32 (u32 (u32 (s / 100000000 * 429497) * 100) * 100) = s / 100000000 % 100 := by
    rw [hq2]; omega
  rw [hq2b]
  clear hinvA2 hq2 hq2b
  have hds : digits10 s = digits10 (s / 100000000) + 8 := by
    conv_lhs => rw [show s = s / 100000000 * 10 ^ 8 + s % 100000000 by omega]
    rw [digits10_mul_add _ (by omega) (by omega)]
  have hd : digits10 (s / 100000000) = digits10 (s / 100000000 / 10000) + 4 := by
    conv_lhs => rw [show s / 100000000 = s / 100000000 / 10000 * 10 ^ 4 + s / 100000000 % 10000 by omega]
    rw [digits10_mul_add _ (by omega) (by omega)]
  have hsplit : sigBytes s
      = dotted (digitChars (s / 100000000)) ++ dropZeros (padChars (s % 100000000) 8) := by
    conv_lhs => rw [show s = s / 100000000 * 10 ^ 8 + s % 100000000 by omega]
    exact sigBytes_split _ (by omega) (by omega) (by omega)
  have hfbW : digitChars (s / 100000000)
      = digitChars (s / 100000000 / 10000) ++ padChars (s / 100000000 % 10000) 4 := by
    conv_lhs => rw [show s / 100000000 = s / 100000000 / 10000 * 10 ^ 4 + s / 100000000 % 10000 by omega]
    exact digitChars_mul_add _ (by omega) (by omega)
  by_cases hh10 : 10 ≤ s / 100000000 / 10000
  · simp only [if_pos hh10]
    have hdv : digits10 s = 14 := by
      rw [hds, hd, digits10_two hh10 (by omega)]
    clear hds hd
    have hhd : dotted (digitChars (s / 100000000))
        = [48 + s / 100000000 / 10000 / 10, 46, 48 + s / 100000000 / 10000 % 10]
          ++ padChars (s / 100000000 % 10000) 4 := by
      rw [hfbW, digitChars_two hh10 (by omega)]
      rfl
    have hlen : (sigBytes s).length
        = 7 + (dropZeros (padChars (s % 100000000) 8)).length := by
      rw [hsplit, hhd]
      simp only [List.length_append, List.cons_append, List.length_cons,
        List.length_nil, padChars_length]
      omega
    refine ⟨by omega, ?_, ?_⟩
    · rw [(psb_spec _ _ _ (by omega) (by omega)).1, hlen]
      omega
    · rw [hlen, hsplit, hhd, readRange_append]
      congr 1
      · rw [rr_psb_low _ _ _ _ _ (by omega), padChars_4]
        rw [rr_p2_snoc _ _ _ _ 5 _ rfl rfl,
              rr_p2_snoc _ _ _ _ 3 _ rfl rfl,
              rr_wr_snoc _ _ _ _ 2 _ rfl rfl,
              rr_ch_ge _ _ _ _ hh10 rfl,
              rt_odd]
        simp only [List.append_assoc, List.cons_append, List.nil_append,
          List.cons.injEq, and_true, true_and]
        omega
      · rw [show pos + 7 = pos + 1 + 6 from rfl]
        exact (psb_spec _ _ _ (by omega) (by omega)).2
  · simp only [if_neg hh10]
    have hdv : digits10 s = 13 := by
      rw [hds, hd, digits10_lt (by omega)]
    have hlt : s / 100000000 / 10000 < 10 := by omega
    clear hds hd
    have hhd : dotted (digitChars (s / 100000000))
        = [48 + s / 100000000 / 10000, 46] ++ padChars (s / 100000000 % 10000) 4 := by
      rw [hfbW, digitChars_lt (by omega)]
      rfl
    have hlen : (sigBytes s).length
        = 6 + (dropZeros (padChars (s % 100000000) 8)).length := by
      rw [hsplit, hhd]
      simp only [List.length_append, List.cons_append, List.length_cons,
        List.length_nil, padChars_length]
      omega
    refine ⟨by omega, ?_, ?_⟩
    · rw [(psb_spec _ _ _ (by omega) (by omega)).1, hlen]
      omega
    · rw [hlen, hsplit, hhd, readRange_append]
      congr 1
      · rw [rr_psb_low _ _ _ _ _ (by omega), padChars_4]
        rw [rr_p2_snoc _ _ _ _ 4 _ rfl rfl,
              rr_p2_snoc _ _ _ _ 2 _ rfl rfl,
              rr_wr_out _ _ _ _ _ (by omega),
              rr_ch_lt _ _ _ _ hlt rfl]
        simp only [List.append_assoc, List.cons_append, List.nil_append,
          List.cons.injEq, and_true, true_and]
        omega
      · rw [show pos + 6 = pos + 0 + 6 from rfl]
        exact (psb_spec _ _ _ (by omega) (by omega)).2

set_option maxHeartbeats 1600000 in
theorem tcd_mixed34 (s : Nat) (e : Int) (pos : Nat) (b : Buf)
    (hs : 100000000 ≤ s) (h17 : s < 100000000000000000)
    (hsb : s % 100000000 ≠ 0)
    (hfb1 : 100 ≤ s / 100000000) (hfb2 : s / 100000000 < 10000) :
    (to_chars_double_sig s e pos b).1 = e + (digits10 s : Int) - 1 ∧
    (to_chars_double_sig s e pos b).2.1 = pos + (sigBytes s).length ∧
    readRange (to_chars_double_sig s e pos b).2.2 pos (sigBytes s).length = sigBytes s := by
  unfold to_chars_double_sig
  rw [if_pos hs]
  simp only []
  rw [first_block_eq s (by omega), second_block_eq s (by omega)]
  rw [if_neg hsb, if_neg (show ¬ 100000000 ≤ s / 100000000 by omega)]
  rw [if_neg (show ¬ 1000000 ≤ s / 100000000 by omega), if_neg (show ¬ 10000 ≤ s / 100000000 by omega), if_pos hfb1]
  simp only []
  obtain ⟨c1, c2⟩ := seed34 hfb1 hfb2
  obtain ⟨hhead, hinvA1⟩ := seed_split 2 _ _ c1 c2
  clear c1 c2
  have hhead2 : hi32 (s / 100000000 * 42949673) = s / 100000000 / 100 := by
    rw [hhead]; norm_num
  rw [hhead2]
  clear hhead hhead2
  obtain ⟨hq1, hinvA2⟩ := pair_step (m := 0) hinvA1
  have hq1b : hi32 (u32 (s / 100000000 * 42949673) * 100) = s / 100000000 % 100 := by
    rw [hq1]; norm_num
  rw [hq1b]
  clear hinvA1 hq1 hq1b
  have hds : digits10 s = digits10 (s / 100000000) + 8 := by
    conv_lhs => rw [show s = s / 100000000 * 10 ^ 8 + s % 100000000 by omega]
    rw [digits10_mul_add _ (by omega) (by omega)]
  have hd : digits10 (s / 100000000) = digits10 (s / 100000000 / 100) + 2 := by
    conv_lhs => rw [show s / 100000000 = s / 100000000 / 100 * 10 ^ 2 + s / 100000000 % 100 by omega]
    rw [digits10_mul_add _ (by omega) (by omega)]
  have hsplit : sigBytes s
      = dotted (digitChars (s / 100000000)) ++ dropZeros (padChars (s % 100000000) 8) := by
    conv_lhs => rw [show s = s / 100000000 * 10 ^ 8 + s % 100000000 by omega]
    exact sigBytes_split _ (by omega) (by omega) (by omega)
  have hfbW : digitChars (s / 100000000)
      = digitChars (s / 100000000 / 100) ++ padChars (s / 100000000 % 100) 2 := by
    conv_lhs => rw [show s / 100000000 = s / 100000000 / 100 * 10 ^ 2 + s / 100000000 % 100 by omega]
    exact digitChars_mul_add _ (by omega) (by omega)
  by_cases hh10 : 10 ≤ s / 100000000 / 100
  · simp only [if_pos hh10]
    have hdv : digits10 s = 12 := by
      rw [hds, hd, digits10_two hh10 (by omega)]
    clear hds hd
    have hhd : dotted (digitChars (s / 100000000))
        = [48 + s / 100000000 / 100 / 10, 46, 48 + s / 100000000 / 100 % 10]
          ++ padChars (s / 100000000 % 100) 2 := by
      rw [hfbW, digitChars_two hh10 (by omega)]
      rfl
    have hlen : (sigBytes s).length
        = 5 + (dropZeros (padChars (s % 100000000) 8)).length := by
      rw [hsplit, hhd]
      simp only [List.length_append, List.cons_append, List.length_cons,
        List.length_nil, padChars_length]
      omega
    refine ⟨by omega, ?_, ?_⟩
    · rw [(psb_spec _ _ _ (by omega) (by omega)).1, hlen]
      omega
    · rw [hlen, hsplit, hhd, readRange_append]
      congr 1
      · rw [rr_psb_low _ _ _ _ _ (by omega), padChars_2]
        rw [rr_p2_snoc _ _ _ _ 3 _ rfl rfl,
              rr_wr_snoc _ _ _ _ 2 _ rfl rfl,
              rr_ch_ge _ _ _ _ hh10 rfl,
              rt_odd]
        simp only [List.append_assoc, List.cons_append, List.nil_append,
          List.cons.injEq, and_true, true_and]
        omega
      · rw [show pos + 5 = pos + 1 + 4 from rfl]
        exact (psb_spec _ _ _ (by omega) (by omega)).2
  · simp only [if_neg hh10]
    have hdv : digits10 s = 11 := by
      rw [hds, hd, digits10_lt (by omega)]
    have hlt : s / 100000000 / 100 < 10 := by omega
    clear hds hd
    have hhd : dotted (digitChars (s / 100000000))
        = [48 + s / 100000000 / 100, 46] ++ padChars (s / 100000000 % 100) 2 := by
      rw [hfbW, digitChars_lt (by omega)]
      rfl
    have hlen : (sigBytes s).length
        = 4 + (dropZeros (padChars (s % 100000000) 8)).length := by
      rw [hsplit, hhd]
      simp only [List.length_append, List.cons_append, List.length_cons,
        List.length_nil, padChars_length]
      omega
    refine ⟨by omega, ?_, ?_⟩
    · rw [(psb_spec _ _ _ (by omega) (by omega)).1, hlen]
      omega
    · rw [hlen, hsplit, hhd, readRange_append]
      congr 1
      · rw [rr_psb_low _ _ _ _ _ (by omega), padChars_2]
        rw [rr_p2_snoc _ _ _ _ 2 _ rfl rfl,
              rr_wr_out _ _ _ _ _ (by omega),
              rr_ch_lt _ _ _ _ hlt rfl]
        simp only [List.append_assoc, List.cons_append, List.nil_append,
          List.cons.injEq, and_true, true_and]
        omega
      · rw [show pos + 4 = pos + 0 + 4 from rfl]
        exact (psb_spec _ _ _ (by omega) (by omega)).2

end Charconv

namespace Charconv

set_option maxHeartbeats 1600000 in
theorem tcd_mixed12 (s : Nat) (e : Int) (pos : Nat) (b : Buf)
    (hs : 100000000 ≤ s) (h17 : s < 100000000000000000)
    (hsb : s % 100000000 ≠ 0) (hfb2 : s / 100000000 < 100) :
    (to_chars_double_sig s e pos b).1 = e + (digits10 s : Int) - 1 ∧
    (to_chars_double_sig s e pos b).2.1 = pos + (sigBytes s).length ∧
    readRange (to_chars_double_sig s e pos b).2.2 pos (sigBytes s).length = sigBytes s := by
  unfold to_chars_double_sig
  rw [if_pos hs]
  simp only []
  rw [first_block_eq s (by omega), second_block_eq s (by omega)]
  rw [if_neg hsb, if_neg (show ¬ 100000000 ≤ s / 100000000 by omega)]
  rw [if_neg (show ¬ 1000000 ≤ s / 100000000 by omega),
      if_neg (show ¬ 10000 ≤ s / 100000000 by omega),
      if_neg (show ¬ 100 ≤ s / 100000000 by omega)]
  simp only []
  have hds : digits10 s = digits10 (s / 100000000) + 8 := by
    conv_lhs => rw [show s = s / 100000000 * 10 ^ 8 + s % 100000000 by omega]
    rw [digits10_mul_add _ (by omega) (by omega)]
  have hsplit : sigBytes s
      = dotted (digitChars (s / 100000000)) ++ dropZeros (padChars (s % 100000000) 8) := by
    conv_lhs => rw [show s = s / 100000000 * 10 ^ 8 + s % 100000000 by omega]
    exact sigBytes_split _ (by omega) (by omega) (by omega)
  by_cases hh10 : 10 ≤ s / 100000000
  · simp only [if_pos hh10]
    have hdv : digits10 s = 10 := by
      rw [hds, digits10_two hh10 (by omega)]
    clear hds
    have hhd : dotted (digitChars (s / 100000000))
        = [48 + s / 100000000 / 10, 46, 48 + s / 100000000 % 10] := by
      rw [digitChars_two hh10 (by omega)]
      rfl
    have hlen : (sigBytes s).length
        = 3 + (dropZeros (padChars (s % 100000000) 8)).length := by
      rw [hsplit, hhd]
      simp only [List.length_append, List.cons_append, List.length_cons,
        List.length_nil, padChars_length]
      omega
    refine ⟨by omega, ?_, ?_⟩
    · rw [(psb_spec _ _ _ (by omega) (by omega)).1, hlen]
      omega
    · rw [hlen, hsplit, hhd, readRange_append]
      congr 1
      · rw [rr_psb_low _ _ _ _ _ (by omega)]
        rw [rr_wr_snoc _ _ _ _ 2 _ rfl rfl,
            rr_ch_ge _ _ _ _ hh10 rfl,
            rt_odd]
        simp only [List.cons_append, List.nil_append]
      · exact (psb_spec _ _ _ (by omega) (by omega)).2
  · simp only [if_neg hh10]
    have hdv : digits10 s = 9 := by
      rw [hds, digits10_lt (by omega)]
    have hlt : s / 100000000 < 10 := by omega
    clear hds
    have hhd : dotted (digitChars (s / 100000000))
        = [48 + s / 100000000, 46] := by
      rw [digitChars_lt (by omega)]
      rfl
    have hlen : (sigBytes s).length
        = 2 + (dropZeros (padChars (s % 100000000) 8)).length := by
      rw [hsplit, hhd]
      simp only [List.length_append, List.cons_append, List.length_cons,
        List.length_nil, padChars_length]
      omega
    refine ⟨by omega, ?_, ?_⟩
    · rw [(psb_spec _ _ _ (by omega) (by omega)).1, hlen]
      omega
    · rw [hlen, hsplit, hhd, readRange_append]
      congr 1
      · rw [rr_psb_low _ _ _ _ _ (by omega)]
        rw [rr_wr_out _ _ _ _ _ (by omega),
            rr_ch_lt _ _ _ _ hlt rfl]
      · exact (psb_spec _ _ _ (by omega) (by omega)).2

end Charconv

namespace Charconv

set_option maxHeartbeats 1600000 in
/-- The dense 17-digit path: 9-digit first block then 8-digit second block,
no trimming (the input carries no trailing zeros). -/
theorem tcd_dense17 (s : Nat) (e : Int) (pos : Nat) (b : Buf)
    (hs : 100000000 ≤ s) (h17 : s < 100000000000000000)
    (hsb : s % 100000000 ≠ 0) (hfb9 : 100000000 ≤ s / 100000000)
    (hlast : s % 10 ≠ 0) :
    (to_chars_double_sig s e pos b).1 = e + (digits10 s : Int) - 1 ∧
    (to_chars_double_sig s e pos b).2.1 = pos + (sigBytes s).length ∧
    readRange (to_chars_double_sig s e pos b).2.2 pos (sigBytes s).length = sigBytes s := by
  unfold to_chars_double_sig
  rw [if_pos hs]
  simp only []
  rw [first_block_eq s (by omega), second_block_eq s (by omega)]
  rw [if_neg hsb, if_pos hfb9]
  simp only []
  obtain ⟨c1, c2⟩ := seed9 hfb9 (by omega)
  obtain ⟨hhead, hinvA1⟩ := seed_split 8 _ _ c1 c2
  clear c1 c2
  have hhead2 : hi32 (s / 100000000 * 1441151882 / 2 ^ 25)
      = s / 10000000000000000 := by
    rw [hhead]; omega
  rw [hhead2]
  clear hhead hhead2
  obtain ⟨hq1, hinvA2⟩ := pair_step (m := 6) hinvA1
  have hq1b : hi32 (u32 (s / 100000000 * 1441151882 / 2 ^ 25) * 100)
      = s / 100000000 % 100000000 / 1000000 := by
    rw [hq1]; norm_num
  rw [hq1b]
  clear hinvA1 hq1 hq1b
  obtain ⟨hq2, hinvA3⟩ := pair_step (m := 4) hinvA2
  have hq2b : hi32 (u32 (u32 (s / 100000000 * 1441151882 / 2 ^ 25) * 100) * 100)
      = s / 100000000 % 1000000 / 10000 := by
    rw [hq2]; omega
  rw [hq2b]
  clear hinvA2 hq2 hq2b
  obtain ⟨hq3, hinvA4⟩ := pair_step (m := 2) hinvA3
  have hq3b : hi32 (u32 (u32 (u32 (s / 100000000 * 1441151882 / 2 ^ 25) * 100) * 100) * 100)
      = s / 100000000 % 10000 / 100 := by
    rw [hq3]; omega
  rw [hq3b]
  clear hinvA3 hq3 hq3b
  obtain ⟨hq4, -⟩ := pair_step (m := 0) hinvA4
  have hq4b : hi32 (u32 (u32 (u32 (u32 (s / 100000000 * 1441151882 / 2 ^ 25) * 100) * 100) * 100) * 100)
      = s / 100000000 % 100 := by
    rw [hq4]; omega
  rw [hq4b]
  clear hinvA4 hq4 hq4b
  obtain ⟨d1, d2⟩ := seedSB (show s % 100000000 < 100000000 by omega)
  obtain ⟨hp1, hinvB1⟩ := seed_split 6 _ _ d1 d2
  clear d1 d2
  have hp1b : hi32 (s % 100000000 * 281474978 / 2 ^ 16 + 1)
      = s % 100000000 / 1000000 := by
    rw [hp1]; norm_num
  rw [hp1b]
  clear hp1 hp1b
  obtain ⟨hp2, hinvB2⟩ := pair_step (m := 4) hinvB1
  have hp2b : hi32 (u32 (s % 100000000 * 281474978 / 2 ^ 16 + 1) * 100)
      = s % 1000000 / 10000 := by
    rw [hp2]; omega
  rw [hp2b]
  clear hinvB1 hp2 hp2b
  obtain ⟨hp3, hinvB3⟩ := pair_step (m := 2) hinvB2
  have hp3b : hi32 (u32 (u32 (s % 100000000 * 281474978 / 2 ^ 16 + 1) * 100) * 100)
      = s % 10000 / 100 := by
    rw [hp3]; omega
  rw [hp3b]
  clear hinvB2 hp3 hp3b
  obtain ⟨hp4, -⟩ := pair_step (m := 0) hinvB3
  have hp4b : hi32 (u32 (u32 (u32 (s % 100000000 * 281474978 / 2 ^ 16 + 1) * 100) * 100) * 100)
      = s % 100 := by
    rw [hp4]; omega
  rw [hp4b]
  clear hinvB3 hp4 hp4b
  have hdv : digits10 s = 17 := by
    conv_lhs => rw [show s = s / 10000000000000000 * 10 ^ 16 + s % 10000000000000000 by omega]
    rw [digits10_mul_add _ (by omega) (by omega), digits10_lt (by omega)]
  have hsplit : sigBytes s
      = dotted (digitChars (s / 100000000)) ++ dropZeros (padChars (s % 100000000) 8) := by
    conv_lhs => rw [show s = s / 100000000 * 10 ^ 8 + s % 100000000 by omega]
    exact sigBytes_split _ (by omega) (by omega) (by omega)
  have hdz : dropZeros (padChars (s % 100000000) 8) = padChars (s % 100000000) 8 :=
    padChars_last 7 (by omega)
  have hfb8 : digitChars (s / 100000000)
      = digitChars (s / 10000000000000000) ++ padChars (s / 100000000 % 100000000) 8 := by
    conv_lhs => rw [show s / 100000000
      = s / 10000000000000000 * 10 ^ 8 + s / 100000000 % 100000000 by omega]
    exact digitChars_mul_add _ (by omega) (by omega)
  have hhd : dotted (digitChars (s / 100000000))
      = [48 + s / 10000000000000000, 46] ++ padChars (s / 100000000 % 100000000) 8 := by
    rw [hfb8, digitChars_lt (by omega)]
    rfl
  have hlt : s / 10000000000000000 < 10 := by omega
  have hlen : (sigBytes s).length = 18 := by
    rw [hsplit, hhd, hdz]
    rfl
  rw [hlen, hsplit, hhd, hdz, padChars_8, padChars_8]
  refine ⟨by omega, rfl, ?_⟩
  rw [rr_p2_snoc _ _ _ _ 16 _ rfl rfl,
      rr_p2_snoc _ _ _ _ 14 _ rfl rfl,
      rr_p2_snoc _ _ _ _ 12 _ rfl rfl,
      rr_p2_snoc _ _ _ _ 10 _ rfl rfl,
      rr_p2_snoc _ _ _ _ 8 _ rfl rfl,
      rr_p2_snoc _ _ _ _ 6 _ rfl rfl,
      rr_p2_snoc _ _ _ _ 4 _ rfl rfl,
      rr_p2_snoc _ _ _ _ 2 _ rfl rfl,
      rr_ch_lt _ _ _ _ hlt rfl]
  simp only [List.append_assoc, List.cons_append, List.nil_append,
    List.cons.injEq, and_true, true_and]
  omega

/-- A zero second block hands the first block to the 32-bit engine, which
trims its trailing zeros; the text of s equals the text of the first block. -/
theorem tcd_sb0 (s : Nat) (e : Int) (pos : Nat) (b : Buf)
    (hs : 100000000 ≤ s) (h17 : s < 100000000000000000)
    (hsb : s % 100000000 = 0) (hfb : s / 100000000 < 100000000) :
    (to_chars_double_sig s e pos b).1 = e + (digits10 s : Int) - 1 ∧
    (to_chars_double_sig s e pos b).2.1 = pos + (sigBytes s).length ∧
    readRange (to_chars_double_sig s e pos b).2.2 pos (sigBytes s).length = sigBytes s := by
  unfold to_chars_double_sig
  rw [if_pos hs]
  simp only []
  rw [first_block_eq s (by omega), second_block_eq s (by omega), if_pos hsb]
  have hsig : sigBytes s = sigBytes (s / 100000000) := by
    unfold sigBytes
    rw [show trimZeros s = trimZeros (s / 100000000) by
      conv_lhs => rw [show s = s / 100000000 * 10 ^ 8 by omega]
      exact trimZeros_mul_pow 8 (by omega)]
  have hds : digits10 s = digits10 (s / 100000000) + 8 := by
    conv_lhs => rw [show s = s / 100000000 * 10 ^ 8 + 0 by omega]
    rw [digits10_mul_add _ (by omega) (by omega)]
  rw [hsig]
  obtain ⟨ha, hb, hc⟩ := p9_spec (s / 100000000) (e + 8) pos b (by omega) (by omega)
    (fun hcc => absurd hcc (by omega))
  exact ⟨by rw [ha]; omega, hb, hc⟩

/-- Full characterization of the 64-bit digit emitter over the data model:
text, cursor and exponent, for any significand up to 17 digits (17-digit
inputs carry no trailing zeros). -/
theorem tcd_spec (s : Nat) (e : Int) (pos : Nat) (b : Buf)
    (h1 : 1 ≤ s) (h2 : s < 100000000000000000)
    (h3 : 10000000000000000 ≤ s → s % 10 ≠ 0) :
    (to_chars_double_sig s e pos b).1 = e + (digits10 s : Int) - 1 ∧
    (to_chars_double_sig s e pos b).2.1 = pos + (sigBytes s).length ∧
    readRange (to_chars_double_sig s e pos b).2.2 pos (sigBytes s).length = sigBytes s := by
  by_cases h9 : 100000000 ≤ s
  · by_cases hsb : s % 100000000 = 0
    · refine tcd_sb0 s e pos b h9 h2 hsb ?_
      by_contra hc
      have h16 : 10000000000000000 ≤ s := by omega
      have := h3 h16
      omega
    · by_cases hfb9 : 100000000 ≤ s / 100000000
      · exact tcd_dense17 s e pos b h9 h2 hsb hfb9 (h3 (by omega))
      · by_cases hfb78 : 1000000 ≤ s / 100000000
        · exact tcd_mixed78 s e pos b h9 h2 hsb hfb78 (by omega)
        · by_cases hfb56 : 10000 ≤ s / 100000000
          · exact tcd_mixed56 s e pos b h9 h2 hsb hfb56 (by omega)
          · by_cases hfb34 : 100 ≤ s / 100000000
            · exact tcd_mixed34 s e pos b h9 h2 hsb hfb34 (by omega)
            · exact tcd_mixed12 s e pos b h9 h2 hsb (by omega)
  · unfold to_chars_double_sig
    rw [if_neg h9]
    rw [show u32 s = s by unfold u32; omega]
    exact p9_spec s e pos b h1 (by omega) (fun hc => absurd hc (by omega))

/-- Bytes outside the window [pos, pos+18) are never touched by the 64-bit
digit emitter. -/
theorem tcd_frame (s : Nat) (e : Int) (pos : Nat) (b : Buf) (j : Nat)
    (hj : j < pos ∨ pos + 18 ≤ j) :
    (to_chars_double_sig s e pos b).2.2 j = b j := by
  unfold to_chars_double_sig
  simp only []
  split_ifs <;> try simp only []
  all_goals try exact p9_frame _ _ _ _ _ (by omega)
  all_goals try rw [psb_frame _ _ _ _ (by omega)]
  all_goals first
    | rfl
    | (repeat first
        | rw [p2_ne _ _ _ (by omega) (by omega)]
        | rw [wr_ne _ _ (by omega)]
        | rw [ch_ne _ _ _ (by omega) (by omega)])

/-- The 64-bit digit emitter advances the cursor by 1 to 18 bytes. -/
theorem tcd_ret (s : Nat) (e : Int) (pos : Nat) (b : Buf) :
    pos + 1 ≤ (to_chars_double_sig s e pos b).2.1 ∧
    (to_chars_double_sig s e pos b).2.1 ≤ pos + 18 := by
  unfold to_chars_double_sig
  simp only []
  split_ifs <;> (try simp only []) <;>
    constructor <;>
    first
      | omega
      | exact le_trans (by omega) (p9_ret _ _ _ _).1
      | exact le_trans (p9_ret _ _ _ _).2 (by omega)
      | exact le_trans (by omega) (psb_ret _ _ _).1
      | exact le_trans (psb_ret _ _ _).2 (by omega)

end Charconv

namespace Charconv

/-! ## Counting digit characters -/

theorem cdc_single (c : Nat) (h1 : 48 ≤ c) (h2 : c ≤ 57) : countDigitChars [c] = 1 := by
  unfold countDigitChars
  rw [List.filter_cons, if_pos (by rw [decide_eq_true_eq]; omega)]
  rfl

theorem cdc_append (l1 l2 : List Nat) :
    countDigitChars (l1 ++ l2) = countDigitChars l1 + countDigitChars l2 := by
  unfold countDigitChars
  rw [List.filter_append, List.length_append]

theorem cdc_dotted (l : List Nat) : countDigitChars (dotted l) = countDigitChars l := by
  cases l with
  | nil => rfl
  | cons c t =>
      show countDigitChars (c :: 46 :: t) = countDigitChars (c :: t)
      unfold countDigitChars
      cases hc : decide (48 ≤ c ∧ c ≤ 57) <;> simp [List.filter_cons, hc]

theorem cdc_digitChars (n : Nat) : countDigitChars (digitChars n) = digits10 n := by
  induction n using Nat.strong_induction_on with
  | _ n ih =>
    by_cases h : n < 10
    · rw [digitChars_lt h, digits10_lt h, cdc_single _ (by omega) (by omega)]
    · rw [digitChars_ge (by omega), digits10_ge (by omega), cdc_append,
          ih (n / 10) (Nat.div_lt_self (by omega) (by omega)),
          cdc_single _ (by omega) (by omega)]

/-- The number of digit characters in the emitted text is the digit count of
the trimmed significand. -/
theorem cdc_sigBytes (n : Nat) : countDigitChars (sigBytes n) = digits10 (trimZeros n) := by
  unfold sigBytes
  by_cases h : trimZeros n < 10
  · rw [digitChars_lt h, show withDot [48 + trimZeros n] = [48 + trimZeros n] from rfl,
        cdc_single _ (by omega) (by omega), digits10_lt h]
  · rw [digitChars_ge (by omega), digits10_ge (by omega),
        withDot_append (digitChars_ne_nil _) (by simp),
        cdc_append, cdc_dotted, cdc_digitChars, cdc_single _ (by omega) (by omega)]

/-! ## Frames and cursor bounds for the exponent writers -/

theorem rr_p1_snoc (n p q L m : Nat) (b : Buf) (hp : p = q + m) (hL : L = m + 1) :
    readRange (print_1_digit n p b) q L = readRange b q m ++ [48 + n] :=
  rr_wr_snoc (48 + n) p q L m b hp hL

theorem pedig_frame (ex pos : Nat) (b : Buf) (j : Nat)
    (hj : j < pos ∨ pos + 3 ≤ j) :
    (print_expo_digits ex pos b).2 j = b j := by
  unfold print_expo_digits print_1_digit
  simp only []
  split_ifs <;> simp only [] <;>
    (repeat first
      | rw [p2_ne _ _ _ (by omega) (by omega)]
      | rw [wr_ne _ _ (by omega)])

theorem pedig_ret (ex pos : Nat) (b : Buf) :
    pos ≤ (print_expo_digits ex pos b).1 ∧ (print_expo_digits ex pos b).1 ≤ pos + 3 := by
  unfold print_expo_digits
  simp only []
  split_ifs <;> simp only [] <;> omega

theorem pef_frame (eI : Int) (fmt : chars_format) (pos : Nat) (b : Buf) (j : Nat)
    (hj : j < pos ∨ pos + 4 ≤ j) :
    (print_expo_float eI fmt pos b).2 j = b j := by
  unfold print_expo_float
  try simp only []
  split_ifs <;> (try simp only []) <;>
    first
      | rfl
      | (repeat first
          | rw [p2_ne _ _ _ (by omega) (by omega)]
          | rw [wr_ne _ _ (by omega)])

theorem pef_ret (eI : Int) (fmt : chars_format) (pos : Nat) (b : Buf) :
    pos ≤ (print_expo_float eI fmt pos b).1 ∧
    (print_expo_float eI fmt pos b).1 ≤ pos + 4 := by
  unfold print_expo_float
  try simp only []
  split_ifs <;> (try simp only []) <;> omega

theorem ped_frame (eI : Int) (fmt : chars_format) (pos : Nat) (b : Buf) (j : Nat)
    (hj : j < pos ∨ pos + 5 ≤ j) :
    (print_expo_double eI fmt pos b).2 j = b j := by
  unfold print_expo_double
  try simp only []
  split_ifs <;> (try simp only [])
  all_goals try rw [pedig_frame _ _ _ _ (by omega)]
  all_goals first
    | rfl
    | (repeat rw [wr_ne _ _ (by omega)])

theorem ped_ret (eI : Int) (fmt : chars_format) (pos : Nat) (b : Buf) :
    pos ≤ (print_expo_double eI fmt pos b).1 ∧
    (print_expo_double eI fmt pos b).1 ≤ pos + 5 := by
  unfold print_expo_double
  try simp only []
  split_ifs <;> (try simp only []) <;>
    constructor <;>
    first
      | omega
      | exact le_trans (by omega) (pedig_ret _ _ _).1
      | exact le_trans (pedig_ret _ _ _).2 (by omega)

end Charconv

namespace Charconv

/-! ## The claims -/

/-- C1: for every s32 in [1, 999999999] (9-digit inputs carrying no trailing
zeros) and every 64-bit significand in [1, 10^17-1] (17-digit inputs carrying
no trailing zeros), the byte range [initial_cursor, returned_cursor) of the
shortest-digit engine holds exactly the significant digits of the input with
trailing zeros removed: leading digit, a dot iff more than one digit remains,
then the remaining digits, with no trailing zero and no trailing dot (sigBytes
is by definition the trimmed digit string with the conditional dot). -/
theorem claim_C1 (pos : Nat) (b : Buf) :
    (∀ (s32 : Nat) (e : Int), 1 ≤ s32 → s32 ≤ 999999999 →
      (100000000 ≤ s32 → s32 % 10 ≠ 0) →
      readRange (print_9_digits s32 e pos b).2.2 pos
          ((print_9_digits s32 e pos b).2.1 - pos) = sigBytes s32) ∧
    (∀ (s : Nat) (e : Int), 1 ≤ s → s ≤ 10 ^ 17 - 1 →
      (10 ^ 16 ≤ s → s % 10 ≠ 0) →
      readRange (to_chars_double_sig s e pos b).2.2 pos
          ((to_chars_double_sig s e pos b).2.1 - pos) = sigBytes s) := by
  constructor
  · intro s e h1 h2 h3
    obtain ⟨-, hb, hc⟩ := p9_spec s e pos b h1 h2 h3
    rw [hb, show pos + (sigBytes s).length - pos = (sigBytes s).length by omega, hc]
  · intro s e h1 h2 h3
    obtain ⟨-, hb, hc⟩ := tcd_spec s e pos b h1 (by omega) (fun h => h3 (by omega))
    rw [hb, show pos + (sigBytes s).length - pos = (sigBytes s).length by omega, hc]

/-- Witness for C1: 10230 prints as 1.023 and 1020000000 prints as 1.02. -/
theorem claim_C1_witness :
    readRange (print_9_digits 10230 0 0 zbuf).2.2 0
        ((print_9_digits 10230 0 0 zbuf).2.1 - 0) = sigBytes 10230 ∧
    readRange (to_chars_double_sig 1020000000 0 0 zbuf).2.2 0
        ((to_chars_double_sig 1020000000 0 0 zbuf).2.1 - 0) = sigBytes 1020000000 :=
  ⟨(claim_C1 0 zbuf).1 10230 0 (by decide) (by decide) (by decide),
   (claim_C1 0 zbuf).2 1020000000 0 (by decide) (by decide) (by decide)⟩

/-- C2 (corrected): the engine updates the exponent by digits10 s32 - 1, the
digit count of the numeric input including any trailing zeros that are
trimmed from the text; this equals the written-digit count minus one exactly
in the no-trimming case (s32 not divisible by 10).  The original wording,
exponent_out = exponent_in + written_digit_chars - 1 unconditionally, is
refuted by claim_C2_counterexample. -/
theorem claim_C2 (s32 : Nat) (e : Int) (pos : Nat) (b : Buf)
    (h1 : 1 ≤ s32) (h2 : s32 ≤ 999999999) :
    (print_9_digits s32 e pos b).1 = e + (digits10 s32 : Int) - 1 ∧
    (s32 % 10 ≠ 0 →
      (print_9_digits s32 e pos b).1
        = e + (countDigitChars (readRange (print_9_digits s32 e pos b).2.2 pos
            ((print_9_digits s32 e pos b).2.1 - pos)) : Int) - 1) := by
  refine ⟨p9_expo s32 e pos b h1 h2, fun hmod => ?_⟩
  obtain ⟨ha, hb, hc⟩ := p9_spec s32 e pos b h1 h2 (fun _ => hmod)
  rw [hb, show pos + (sigBytes s32).length - pos = (sigBytes s32).length by omega, hc,
      cdc_sigBytes, trimZeros_eq_self hmod, ha]

/-- Witness for C2 at s32 = 25. -/
theorem claim_C2_witness :
    (print_9_digits 25 0 0 zbuf).1 = 0 + (digits10 25 : Int) - 1 ∧
    (print_9_digits 25 0 0 zbuf).1
      = 0 + (countDigitChars (readRange (print_9_digits 25 0 0 zbuf).2.2 0
          ((print_9_digits 25 0 0 zbuf).2.1 - 0)) : Int) - 1 :=
  ⟨(claim_C2 25 0 0 zbuf (by decide) (by decide)).1,
   (claim_C2 25 0 0 zbuf (by decide) (by decide)).2 (by decide)⟩

/-- Counterexample for C2 as stated: s32 = 20 writes the single character 2
(one digit char), but the exponent grows by 1, not by 0. -/
theorem claim_C2_counterexample :
    ¬ ((print_9_digits 20 0 0 zbuf).1
        = 0 + (countDigitChars (readRange (print_9_digits 20 0 0 zbuf).2.2 0
            ((print_9_digits 20 0 0 zbuf).2.1 - 0)) : Int) - 1) := by
  decide

/-- C3: seeding the pair ladder with prod = (sb * 281474978 >> 16) + 1 and
iterating next_pair = high32(low32(prod) * 100) yields the four two-digit
pairs of the zero-padded 8-digit decimal of sb, for every sb below 10^8; and
the +1 is required: for sb = 1 the unseeded ladder gets the last pair wrong. -/
theorem claim_C3 :
    (∀ sb : Nat, sb < 100000000 →
      hi32 (sb * 281474978 / 2 ^ 16 + 1) = sb / 1000000 ∧
      hi32 (u32 (sb * 281474978 / 2 ^ 16 + 1) * 100) = sb % 1000000 / 10000 ∧
      hi32 (u32 (u32 (sb * 281474978 / 2 ^ 16 + 1) * 100) * 100) = sb % 10000 / 100 ∧
      hi32 (u32 (u32 (u32 (sb * 281474978 / 2 ^ 16 + 1) * 100) * 100) * 100)
        = sb % 100) ∧
    (∃ sb : Nat, sb < 100000000 ∧
      ¬ (hi32 (sb * 281474978 / 2 ^ 16) = sb / 1000000 ∧
         hi32 (u32 (sb * 281474978 / 2 ^ 16) * 100) = sb % 1000000 / 10000 ∧
         hi32 (u32 (u32 (sb * 281474978 / 2 ^ 16) * 100) * 100) = sb % 10000 / 100 ∧
         hi32 (u32 (u32 (u32 (sb * 281474978 / 2 ^ 16) * 100) * 100) * 100)
           = sb % 100)) := by
  constructor
  · intro sb h
    obtain ⟨c1, c2⟩ := seedSB h
    obtain ⟨hp1, hinv1⟩ := seed_split 6 _ sb c1 c2
    obtain ⟨hp2, hinv2⟩ := pair_step (m := 4) hinv1
    obtain ⟨hp3, hinv3⟩ := pair_step (m := 2) hinv2
    obtain ⟨hp4, -⟩ := pair_step (m := 0) hinv3
    have hmm1 : sb % 10 ^ 6 % 10 ^ 4 = sb % 10 ^ 4 :=
      Nat.mod_mod_of_dvd sb ⟨100, by norm_num⟩
    have hmm2 : sb % 10 ^ 6 % 10 ^ 4 % 10 ^ 2 = sb % 10 ^ 2 := by
      rw [hmm1]
      exact Nat.mod_mod_of_dvd sb ⟨100, by norm_num⟩
    exact ⟨by rw [hp1]; norm_num,
      by rw [hp2]; norm_num,
      by rw [hp3, hmm1]; norm_num,
      by rw [hp4, hmm2]; norm_num⟩
  · exact ⟨1, by decide, by decide⟩

/-- Witness for C3 at sb = 12345678. -/
theorem claim_C3_witness :
    hi32 (12345678 * 281474978 / 2 ^ 16 + 1) = 12345678 / 1000000 ∧
    hi32 (u32 (12345678 * 281474978 / 2 ^ 16 + 1) * 100) = 12345678 % 1000000 / 10000 ∧
    hi32 (u32 (u32 (12345678 * 281474978 / 2 ^ 16 + 1) * 100) * 100)
      = 12345678 % 10000 / 100 ∧
    hi32 (u32 (u32 (u32 (12345678 * 281474978 / 2 ^ 16 + 1) * 100) * 100) * 100)
      = 12345678 % 100 :=
  claim_C3.1 12345678 (by decide)

/-- C4 (corrected): in the 9-digit band the head obtained as the high 32 bits
of (s32 * 1441151882) >> 25 equals the leading digit s32 / 10^8 and lies in
[1, 9], not in [10, 99] as the spec table states; claim_C4_counterexample
refutes the stated range. -/
theorem claim_C4 (s32 : Nat) (h1 : 100000000 ≤ s32) (h2 : s32 ≤ 999999999) :
    hi32 (s32 * 1441151882 / 2 ^ 25) = s32 / 100000000 ∧
    1 ≤ hi32 (s32 * 1441151882 / 2 ^ 25) ∧
    hi32 (s32 * 1441151882 / 2 ^ 25) ≤ 9 := by
  obtain ⟨c1, c2⟩ := seed9 h1 h2
  obtain ⟨hh, -⟩ := seed_split 8 _ s32 c1 c2
  refine ⟨by rw [hh]; norm_num, ?_, ?_⟩ <;> rw [hh] <;> omega

/-- Witness for C4 at s32 = 987654321 (head 9). -/
theorem claim_C4_witness :
    hi32 (987654321 * 1441151882 / 2 ^ 25) = 987654321 / 100000000 ∧
    1 ≤ hi32 (987654321 * 1441151882 / 2 ^ 25) ∧
    hi32 (987654321 * 1441151882 / 2 ^ 25) ≤ 9 :=
  claim_C4 987654321 (by decide) (by decide)

/-- Counterexample for C4 as stated: at s32 = 10^8 the head is 1, outside
the claimed range [10, 99]. -/
theorem claim_C4_counterexample :
    hi32 (100000000 * 1441151882 / 2 ^ 25) = 1 ∧
    ¬ (10 ≤ hi32 (100000000 * 1441151882 / 2 ^ 25)) := by
  decide

/-- C5: for significands below 10^8 the 64-bit entry point delegates to the
32-bit engine with significand and exponent unchanged; otherwise it computes
first_block = significand / 10^8 and second_block = significand mod 10^8,
adds 8 to the exponent, and when second_block = 0 emits first_block through
the 32-bit engine (which trims its trailing zeros). -/
theorem claim_C5 (s : Nat) (e : Int) (pos : Nat) (b : Buf)
    (h17 : s < 100000000000000000) :
    (s < 100000000 →
      to_chars_double_sig s e pos b = print_9_digits (u32 s) e pos b) ∧
    (100000000 ≤ s →
      first_block_of s = s / 100000000 ∧
      second_block_of s = s % 100000000 ∧
      (second_block_of s = 0 →
        to_chars_double_sig s e pos b
          = print_9_digits (first_block_of s) (e + 8) pos b)) := by
  constructor
  · intro hlt
    unfold to_chars_double_sig
    rw [if_neg (by omega)]
  · intro hge
    refine ⟨first_block_eq s h17, second_block_eq s h17, fun hz => ?_⟩
    unfold to_chars_double_sig
    rw [if_pos hge]
    simp only []
    rw [if_pos hz]

/-- Witness for C5 at s = 2000000000 (split, zero second block) and s = 5
(delegation). -/
theorem claim_C5_witness :
    to_chars_double_sig 2000000000 0 0 zbuf
      = print_9_digits (first_block_of 2000000000) (0 + 8) 0 zbuf ∧
    to_chars_double_sig 5 0 0 zbuf = print_9_digits (u32 5) 0 0 zbuf :=
  ⟨((claim_C5 2000000000 0 0 zbuf (by decide)).2 (by decide)).2.2 (by decide),
   (claim_C5 5 0 0 zbuf (by decide)).1 (by decide)⟩

/-- C6: when the adjusted scientific exponent is 0, both dispatchers emit no
exponent suffix under the general format (cursor and buffer left exactly as
the digit emitter returned them) and emit exactly the four bytes e+00 under
the scientific format. -/
theorem claim_C6 (s : Nat) (e : Int) (pos : Nat) (b : Buf) :
    ((print_9_digits s e pos b).1 = 0 →
      to_chars_float s e pos b chars_format.general
        = ((print_9_digits s e pos b).2.1, (print_9_digits s e pos b).2.2) ∧
      (to_chars_float s e pos b chars_format.scientific).1
        = (print_9_digits s e pos b).2.1 + 4 ∧
      readRange (to_chars_float s e pos b chars_format.scientific).2
          (print_9_digits s e pos b).2.1 4 = [101, 43, 48, 48]) ∧
    ((to_chars_double_sig s e pos b).1 = 0 →
      to_chars_double s e pos b chars_format.general
        = ((to_chars_double_sig s e pos b).2.1, (to_chars_double_sig s e pos b).2.2) ∧
      (to_chars_double s e pos b chars_format.scientific).1
        = (to_chars_double_sig s e pos b).2.1 + 4 ∧
      readRange (to_chars_double s e pos b chars_format.scientific).2
          (to_chars_double_sig s e pos b).2.1 4 = [101, 43, 48, 48]) := by
  constructor
  · intro h0
    unfold to_chars_float
    simp only []
    rw [h0]
    refine ⟨?_, ?_, ?_⟩
    · unfold print_expo_float
      rw [if_neg (by decide), if_pos rfl, if_neg (by decide)]
    · unfold print_expo_float
      rw [if_neg (by decide), if_pos rfl, if_pos rfl]
    · unfold print_expo_float
      rw [if_neg (by decide), if_pos rfl, if_pos rfl]
      rw [rr_wr_snoc _ _ _ _ 3 _ rfl rfl, rr_wr_snoc _ _ _ _ 2 _ rfl rfl,
          rr_wr_snoc _ _ _ _ 1 _ rfl rfl, rr1, wr_at]
      rfl
  · intro h0
    unfold to_chars_double
    simp only []
    rw [h0]
    refine ⟨?_, ?_, ?_⟩
    · unfold print_expo_double
      rw [if_neg (by decide), if_pos rfl, if_neg (by decide)]
    · unfold print_expo_double
      rw [if_neg (by decide), if_pos rfl, if_pos rfl]
    · unfold print_expo_double
      rw [if_neg (by decide), if_pos rfl, if_pos rfl]
      rw [rr_wr_snoc _ _ _ _ 3 _ rfl rfl, rr_wr_snoc _ _ _ _ 2 _ rfl rfl,
          rr_wr_snoc _ _ _ _ 1 _ rfl rfl, rr1, wr_at]
      rfl

/-- Witness for C6 at s = 5, e = 0 (adjusted exponent 0). -/
theorem claim_C6_witness :
    (to_chars_float 5 0 0 zbuf chars_format.general
        = ((print_9_digits 5 0 0 zbuf).2.1, (print_9_digits 5 0 0 zbuf).2.2) ∧
      (to_chars_float 5 0 0 zbuf chars_format.scientific).1
        = (print_9_digits 5 0 0 zbuf).2.1 + 4 ∧
      readRange (to_chars_float 5 0 0 zbuf chars_format.scientific).2
          (print_9_digits 5 0 0 zbuf).2.1 4 = [101, 43, 48, 48]) ∧
    (to_chars_double 5 0 0 zbuf chars_format.general
        = ((to_chars_double_sig 5 0 0 zbuf).2.1, (to_chars_double_sig 5 0 0 zbuf).2.2) ∧
      (to_chars_double 5 0 0 zbuf chars_format.scientific).1
        = (to_chars_double_sig 5 0 0 zbuf).2.1 + 4 ∧
      readRange (to_chars_double 5 0 0 zbuf chars_format.scientific).2
          (to_chars_double_sig 5 0 0 zbuf).2.1 4 = [101, 43, 48, 48]) :=
  ⟨(claim_C6 5 0 0 zbuf).1 (by decide), (claim_C6 5 0 0 zbuf).2 (by decide)⟩

/-- C7: a three-digit double exponent suffix is computed by the multiply-high
trick prod = exp * 6554, d1 = prod >> 16, d2 = (low16(prod) * 5) >> 15, and
for every exp in [100, 999] d1 = exp / 10, d2 = exp mod 10, so the emitted
bytes are the three decimal digits; below 100 exactly two digit bytes are
emitted; the float writer always emits e, a sign, and exactly two digit
bytes for adjusted exponents of magnitude at most 99. -/
theorem claim_C7 :
    (∀ (ex : Nat) (pos : Nat) (b : Buf), 100 ≤ ex → ex ≤ 999 →
      ex * 6554 / 2 ^ 16 = ex / 10 ∧
      ex * 6554 % 2 ^ 16 * 5 / 2 ^ 15 = ex % 10 ∧
      (print_expo_digits ex pos b).1 = pos + 3 ∧
      readRange (print_expo_digits ex pos b).2 pos 3
        = [48 + ex / 100, 48 + ex / 10 % 10, 48 + ex % 10]) ∧
    (∀ (ex : Nat) (pos : Nat) (b : Buf), ex < 100 →
      (print_expo_digits ex pos b).1 = pos + 2 ∧
      readRange (print_expo_digits ex pos b).2 pos 2
        = [48 + ex / 10, 48 + ex % 10]) ∧
    (∀ (eI : Int) (pos : Nat) (b : Buf) (fmt : chars_format),
      eI ≠ 0 → -99 ≤ eI → eI ≤ 99 →
      (print_expo_float eI fmt pos b).1 = pos + 4 ∧
      readRange (print_expo_float eI fmt pos b).2 pos 4
        = [101, if eI < 0 then 45 else 43,
           48 + eI.natAbs / 10, 48 + eI.natAbs % 10]) := by
  refine ⟨?_, ?_, ?_⟩
  · intro ex pos b hlo hhi
    have hd1 : ex * 6554 / 2 ^ 16 = ex / 10 := by omega
    have hd2 : ex * 6554 % 2 ^ 16 * 5 / 2 ^ 15 = ex % 10 := by omega
    refine ⟨hd1, hd2, ?_, ?_⟩
    · unfold print_expo_digits
      rw [if_pos (by omega)]
    · unfold print_expo_digits
      rw [if_pos (by omega)]
      simp only []
      rw [hd1, hd2]
      rw [rr_p1_snoc _ _ _ _ 2 _ rfl rfl, rr_p2_term _ _ _ _ rfl]
      simp only [List.cons_append, List.nil_append, List.cons.injEq, and_true,
        true_and]
      omega
  · intro ex pos b hlt
    unfold print_expo_digits
    rw [if_neg (by omega)]
    exact ⟨rfl, by rw [rr_p2_term _ _ _ _ rfl]⟩
  · intro eI pos b fmt hne hlo hhi
    unfold print_expo_float
    by_cases hneg : eI < 0
    · rw [if_pos hneg]
      simp only []
      refine ⟨trivial, ?_⟩
      rw [rr_p2_snoc _ _ _ _ 2 _ rfl rfl, rr_wr_snoc _ _ _ _ 1 _ rfl rfl,
          rr1, wr_at, if_pos hneg]
      simp only [List.cons_append, List.nil_append, List.cons.injEq, and_true,
        true_and]
      omega
    · rw [if_neg hneg, if_neg hne]
      simp only []
      refine ⟨trivial, ?_⟩
      rw [rr_p2_snoc _ _ _ _ 2 _ rfl rfl, rr_wr_snoc _ _ _ _ 1 _ rfl rfl,
          rr1, wr_at, if_neg hneg]
      simp only [List.cons_append, List.nil_append, List.cons.injEq, and_true,
        true_and]
      omega

/-- Witness for C7 at exp = 256, exp = 7 and adjusted float exponent -42. -/
theorem claim_C7_witness :
    (256 * 6554 / 2 ^ 16 = 256 / 10 ∧
     256 * 6554 % 2 ^ 16 * 5 / 2 ^ 15 = 256 % 10 ∧
     (print_expo_digits 256 0 zbuf).1 = 0 + 3 ∧
     readRange (print_expo_digits 256 0 zbuf).2 0 3
       = [48 + 256 / 100, 48 + 256 / 10 % 10, 48 + 256 % 10]) ∧
    ((print_expo_digits 7 0 zbuf).1 = 0 + 2 ∧
     readRange (print_expo_digits 7 0 zbuf).2 0 2 = [48 + 7 / 10, 48 + 7 % 10]) ∧
    ((print_expo_float (-42) chars_format.general 0 zbuf).1 = 0 + 4 ∧
     readRange (print_expo_float (-42) chars_format.general 0 zbuf).2 0 4
       = [101, if (-42 : Int) < 0 then 45 else 43,
          48 + (-42 : Int).natAbs / 10, 48 + (-42 : Int).natAbs % 10]) :=
  ⟨claim_C7.1 256 0 zbuf (by decide) (by decide),
   claim_C7.2.1 7 0 zbuf (by decide),
   claim_C7.2.2 (-42) 0 zbuf chars_format.general (by decide) (by decide) (by decide)⟩

/-- C8: the float and double writers never touch a byte at offset 32 or
beyond from the initial cursor, and the returned cursor is at most 25 bytes
past it, for every significand, exponent and format. -/
theorem claim_C8 (s : Nat) (e : Int) (pos : Nat) (b : Buf) (fmt : chars_format) :
    (∀ j, pos + 32 ≤ j → (to_chars_float s e pos b fmt).2 j = b j) ∧
    (to_chars_float s e pos b fmt).1 ≤ pos + 25 ∧
    (∀ j, pos + 32 ≤ j → (to_chars_double s e pos b fmt).2 j = b j) ∧
    (to_chars_double s e pos b fmt).1 ≤ pos + 25 := by
  obtain ⟨hf1, hf2⟩ := p9_ret s e pos b
  obtain ⟨hd1, hd2⟩ := tcd_ret s e pos b
  refine ⟨?_, ?_, ?_, ?_⟩
  · intro j hj
    unfold to_chars_float
    simp only []
    rw [pef_frame _ _ _ _ _ (Or.inr (by omega))]
    exact p9_frame _ _ _ _ _ (by omega)
  · unfold to_chars_float
    simp only []
    exact le_trans (pef_ret _ _ _ _).2 (by omega)
  · intro j hj
    unfold to_chars_double
    simp only []
    rw [ped_frame _ _ _ _ _ (Or.inr (by omega))]
    exact tcd_frame _ _ _ _ _ (by omega)
  · unfold to_chars_double
    simp only []
    exact le_trans (ped_ret _ _ _ _).2 (by omega)

/-- Witness for C8 at concrete inputs and byte offset 35. -/
theorem claim_C8_witness :
    (to_chars_float 123456 7 0 zbuf chars_format.scientific).2 35 = zbuf 35 ∧
    (to_chars_float 123456 7 0 zbuf chars_format.scientific).1 ≤ 0 + 25 ∧
    (to_chars_double 12345678901234567 7 0 zbuf chars_format.scientific).2 35
      = zbuf 35 ∧
    (to_chars_double 12345678901234567 7 0 zbuf chars_format.scientific).1 ≤ 0 + 25 :=
  ⟨(claim_C8 123456 7 0 zbuf chars_format.scientific).1 35 (by decide),
   (claim_C8 123456 7 0 zbuf chars_format.scientific).2.1,
   (claim_C8 12345678901234567 7 0 zbuf chars_format.scientific).2.2.1 35 (by decide),
   (claim_C8 12345678901234567 7 0 zbuf chars_format.scientific).2.2.2⟩

/-- C9 (code bug): the nonfinite writer stores the right NaN strings, and for
nonnegative inputs returns one past the last byte written (3 for nan, 9 for
nan(snan)); but for negative NaNs it returns one byte too far: after writing
the 9 bytes -nan(ind) it returns initial+10 (byte 9 is untouched), and after
writing the 10 bytes -nan(snan) it returns initial+11 (byte 10 untouched),
because the cursor advanced past the minus sign is advanced again by the
is_negative term of the source return expressions. -/
theorem claim_C9 :
    (to_chars_ld_nan false false 0 zbuf).1 = 3 ∧
    readRange (to_chars_ld_nan false false 0 zbuf).2 0 3 = nanBytes ∧
    (to_chars_ld_nan false true 0 zbuf).1 = 9 ∧
    readRange (to_chars_ld_nan false true 0 zbuf).2 0 9 = nanSnanBytes ∧
    (to_chars_ld_nan true false 0 zbuf).1 = 10 ∧
    readRange (to_chars_ld_nan true false 0 zbuf).2 0 9 = 45 :: nanIndBytes ∧
    (to_chars_ld_nan true false 0 zbuf).2 9 = 0 ∧
    (to_chars_ld_nan true true 0 zbuf).1 = 11 ∧
    readRange (to_chars_ld_nan true true 0 zbuf).2 0 10 = 45 :: nanSnanBytes ∧
    (to_chars_ld_nan true true 0 zbuf).2 10 = 0 := by
  decide

/-- C10: for every s32 in [1, 999999999] and every input exponent, the
engine sets the output exponent to exactly e + digits10 s32 - 1, counting
the digits of the numeric input including trailing zeros, even when the
written text is shorter because of trimming. -/
theorem claim_C10 (s32 : Nat) (e : Int) (pos : Nat) (b : Buf)
    (h1 : 1 ≤ s32) (h2 : s32 ≤ 999999999) :
    (print_9_digits s32 e pos b).1 = e + (digits10 s32 : Int) - 1 :=
  p9_expo s32 e pos b h1 h2

/-- Witness for C10 at the trimming input s32 = 20 (text 2, exponent +1). -/
theorem claim_C10_witness :
    (print_9_digits 20 0 0 zbuf).1 = 0 + (digits10 20 : Int) - 1 :=
  claim_C10 20 0 0 zbuf (by decide) (by decide)

end Charconv
